import Mathlib

/-!
Shallow embedding of the update-orchestration core of the aos_communicationmanager
repository (package `unitstatushandler`, package `umcontroller`, and the vendored
`action` handler), together with theorems settling the frozen claims about it.

Conventions:
* Go slices become `List`, Go maps keyed by strings become association lists
  `List (String × α)` whose keys are unique in every reachable program state.
* Status strings from `cloudprotocol` are kept as string constants.
* Fallible Go functions return `Except String α` or `Option`.
-/

namespace AosCM

/-! ## cloudprotocol status constants -/

def InstalledStatus : String := "installed"

def ErrorStatus : String := "error"

def DownloadingStatus : String := "downloading"

def PendingStatus : String := "pending"

def InstallingStatus : String := "installing"

def RemovingStatus : String := "removing"

def RemovedStatus : String := "removed"

def DownloadedStatus : String := "downloaded"

/-! ## Unit status aggregator (`Instance.updateStatus`)

A `statusDescriptor` wraps one of the four amqp status records; the aggregator
only ever consults it through the projections `getStatus` and `getVersion`
(`part_000` lines 363-399), so the embedding keeps exactly those projections. -/

structure StatusDescriptor where
  status : String
  version : String
deriving DecidableEq, Repr

/-- Inner loop of `Instance.updateStatus`: replace the first element whose
version matches the descriptor's, otherwise append the descriptor. -/
def updateStatusLoop (descriptor : StatusDescriptor) :
    List StatusDescriptor → List StatusDescriptor
  | [] => [descriptor]
  | e :: rest =>
    if e.version = descriptor.version then descriptor :: rest
    else e :: updateStatusLoop descriptor rest

/-- Embedding of `Instance.updateStatus` (`part_000` lines 509-523): an
`installed` descriptor collapses the collection to itself; otherwise the first
same-version element is replaced in place, or the descriptor is appended. -/
def updateStatus (status : List StatusDescriptor) (descriptor : StatusDescriptor) :
    List StatusDescriptor :=
  if descriptor.status = InstalledStatus then [descriptor]
  else updateStatusLoop descriptor status

/-! ## Software update manager: data model

The fields of the `cloudprotocol` records that the software manager reads or
writes are kept; the decrypt payload (`DecryptDataStruct`), certificates and
URLs are not consulted by any claim and are omitted from the item records. -/

/-- Projection of `cloudprotocol.ServiceInfo`. -/
structure ServiceInfo where
  id : String
  aosVersion : Nat
  status : String
  error : String
  stateChecksum : String
deriving DecidableEq, Repr

/-- Projection of `cloudprotocol.LayerInfo`. -/
structure LayerInfo where
  id : String
  digest : String
  aosVersion : Nat
  status : String
  error : String
deriving DecidableEq, Repr

/-- Projection of `cloudprotocol.ServiceInfoFromCloud`. -/
structure ServiceInfoFromCloud where
  id : String
  aosVersion : Nat
deriving DecidableEq, Repr

/-- Projection of `cloudprotocol.LayerInfoFromCloud`. -/
structure LayerInfoFromCloud where
  id : String
  digest : String
  aosVersion : Nat
deriving DecidableEq, Repr

/-- Timetable entry of a schedule rule; start and finish are minutes since
midnight standing for the "HH:MM" strings of the wire format. -/
structure TimetableEntry where
  dayOfWeek : Nat
  start : Nat
  finish : Nat
deriving DecidableEq, Repr

def ForceUpdate : String := "force"

def TriggerUpdate : String := "trigger"

def TimetableUpdate : String := "timetable"

/-- Projection of `cloudprotocol.ScheduleRule`. -/
structure ScheduleRule where
  type : String
  ttl : Nat
  timetable : List TimetableEntry
deriving DecidableEq, Repr

/-- Embedding of `softwareUpdate` (`part_000` lines 638-648); the certificate
material is not consulted by any claim and is omitted. -/
structure SoftwareUpdate where
  schedule : ScheduleRule
  downloadServices : List ServiceInfoFromCloud
  installServices : List ServiceInfoFromCloud
  removeServices : List ServiceInfo
  downloadLayers : List LayerInfoFromCloud
  installLayers : List LayerInfoFromCloud
  removeLayers : List LayerInfo
deriving DecidableEq, Repr

/-- Per-item result of the downloader, `downloadResult` projection: the fields
the software manager reads (`FileName`, `Error`). -/
structure DownloadResult where
  fileName : String
  error : String
deriving DecidableEq, Repr

/-- The four states of the generic update state machine. -/
inductive UpdState where
  | noUpdate
  | downloading
  | readyToUpdate
  | updating
deriving DecidableEq, Repr

/-- The five events of the generic update state machine. -/
inductive UpdEvent where
  | startDownload
  | finishDownload
  | startUpdate
  | finishUpdate
  | cancel
deriving DecidableEq, Repr

/-- Transition table installed by `newSoftwareManager` (`part_000` lines
695-707); `canTransit e` of the state machine checks this table from the
current state. -/
def canTransit (state : UpdState) (event : UpdEvent) : Bool :=
  match state, event with
  | .noUpdate, .startDownload => true
  | .downloading, .finishDownload => true
  | .downloading, .cancel => true
  | .readyToUpdate, .cancel => true
  | .readyToUpdate, .startUpdate => true
  | .updating, .finishUpdate => true
  | .updating, .cancel => true
  | _, _ => false

/-- Modelled from the spec: `cmserver.UpdateState` and `convertState` are not
under `src/`; the spec says status channels broadcast the current state as one
of `noUpdate | downloading | readyToUpdate | updating`, so the conversion is
the identity on the four states. -/
def convertState (state : UpdState) : UpdState := state

/-- Snapshot persisted by `softwareManager.saveState` (the JSON-tagged fields
of `softwareManager` that the claims consult). -/
structure PersistedSW where
  currentState : UpdState
  updateErr : String
  layerStatuses : List (String × LayerInfo)
  serviceStatuses : List (String × ServiceInfo)
deriving DecidableEq, Repr

/-- Embedding of `cmserver.UpdateSOTAStatus` as built by
`softwareManager.getCurrentStatus`. -/
structure UpdateSOTAStatus where
  state : UpdState
  error : String
  installLayers : List LayerInfo
  removeLayers : List LayerInfo
  installServices : List ServiceInfo
  removeServices : List ServiceInfo
deriving DecidableEq, Repr

/-- Embedding of `softwareManager`: its JSON-tagged mutable fields, the pending
update, plus an explicit slot recording the last persisted snapshot
(`saveState`) so that persistence ordering is observable. -/
structure SoftwareManager where
  currentState : UpdState
  updateErr : String
  currentUpdate : Option SoftwareUpdate
  pendingUpdate : Option SoftwareUpdate
  layerStatuses : List (String × LayerInfo)
  serviceStatuses : List (String × ServiceInfo)
  downloadResult : List (String × DownloadResult)
  stored : Option PersistedSW
deriving DecidableEq, Repr

/-! ## Software update manager: operations -/

/-- Update the value stored under a key of an association list, leaving the
list unchanged when the key is absent (the Go methods log and return on a
missing id). -/
def setAssoc (l : List (String × α)) (id : String) (f : α → α) : List (String × α) :=
  l.map fun p => if p.1 = id then (p.1, f p.2) else p

/-- Insert or overwrite a key of an association list
(Go `map[k] = v` assignment). -/
def putAssoc (l : List (String × α)) (id : String) (v : α) : List (String × α) :=
  if (l.lookup id).isSome then setAssoc l id (fun _ => v) else l ++ [(id, v)]

/-- Embedding of `softwareManager.updateLayerStatusByID` (`part_000` lines
1291-1305): set status and error of the layer entry; missing ids are logged
and ignored.  The forwarding to the aggregator is outside the manager state. -/
def updateLayerStatusByID (m : SoftwareManager) (id status layerErr : String) :
    SoftwareManager :=
  { m with layerStatuses :=
      setAssoc m.layerStatuses id fun info => { info with status := status, error := layerErr } }

/-- Embedding of `softwareManager.updateServiceStatusByID` (`part_000` lines
1307-1322): set status, error and state checksum of the service entry. -/
def updateServiceStatusByID (m : SoftwareManager) (id status serviceErr checksum : String) :
    SoftwareManager :=
  { m with serviceStatuses :=
      setAssoc m.serviceStatuses id fun info =>
        { info with status := status, error := serviceErr, stateChecksum := checksum } }

/-- Embedding of `softwareManager.updateStatusByID` (`part_000` lines
1281-1289): route by which table holds the id, layers first. -/
def updateStatusByID (m : SoftwareManager) (id status errorStr : String) : SoftwareManager :=
  if (m.layerStatuses.lookup id).isSome then updateLayerStatusByID m id status errorStr
  else if (m.serviceStatuses.lookup id).isSome then
    updateServiceStatusByID m id status errorStr ""
  else m

/-- Cancel sweep of `softwareManager.stateChanged` over the layer table: each
entry whose status is not `error` is overwritten through
`updateLayerStatusByID` with the cancellation reason.  The Go `range` loop
touches each (unique) key once, which is this map. -/
def cancelSweepLayers (updateErr : String) (l : List (String × LayerInfo)) :
    List (String × LayerInfo) :=
  l.map fun p =>
    if p.2.status ≠ ErrorStatus then (p.1, { p.2 with status := ErrorStatus, error := updateErr })
    else p

/-- Cancel sweep of `softwareManager.stateChanged` over the service table
(`updateServiceStatusByID` also clears the state checksum). -/
def cancelSweepServices (updateErr : String) (l : List (String × ServiceInfo)) :
    List (String × ServiceInfo) :=
  l.map fun p =>
    if p.2.status ≠ ErrorStatus then
      (p.1, { p.2 with status := ErrorStatus, error := updateErr, stateChecksum := "" })
    else p

/-- Embedding of `softwareManager.stateChanged` (`part_000` lines 963-994):
on a cancel event overwrite every non-error item status with `error` and the
reason, then record the new state and error, then persist (`saveState`). -/
def stateChanged (m : SoftwareManager) (event : UpdEvent) (state : UpdState)
    (updateErr : String) : SoftwareManager :=
  let m1 :=
    if event = UpdEvent.cancel then
      { m with layerStatuses := cancelSweepLayers updateErr m.layerStatuses,
               serviceStatuses := cancelSweepServices updateErr m.serviceStatuses }
    else m
  let m2 := { m1 with currentState := state, updateErr := updateErr }
  { m2 with stored := some ⟨m2.currentState, m2.updateErr, m2.layerStatuses, m2.serviceStatuses⟩ }

/-- Status entry pushed by `getCurrentStatus` for a planned (download or
install) layer: only id, digest and version are populated. -/
def layerPlanInfo (layer : LayerInfoFromCloud) : LayerInfo :=
  { id := layer.id, digest := layer.digest, aosVersion := layer.aosVersion,
    status := "", error := "" }

/-- Status entry pushed by `getCurrentStatus` for a planned remove layer. -/
def removeLayerPlanInfo (layer : LayerInfo) : LayerInfo :=
  { id := layer.id, digest := layer.digest, aosVersion := layer.aosVersion,
    status := "", error := "" }

/-- Status entry pushed by `getCurrentStatus` for a planned (download or
install) service. -/
def servicePlanInfo (service : ServiceInfoFromCloud) : ServiceInfo :=
  { id := service.id, aosVersion := service.aosVersion,
    status := "", error := "", stateChecksum := "" }

/-- Status entry pushed by `getCurrentStatus` for a planned remove service. -/
def removeServicePlanInfo (service : ServiceInfo) : ServiceInfo :=
  { id := service.id, aosVersion := service.aosVersion,
    status := "", error := "", stateChecksum := "" }

/-- Embedding of `softwareManager.getCurrentStatus` (`part_000` lines 731-770).
The remove-layers loop faithfully reproduces the source's
`status.RemoveLayers = append(status.InstallLayers, ...)` receiver: each
iteration rebuilds `RemoveLayers` from the final `InstallLayers` list plus the
current remove layer, so only the last remove layer survives, preceded by
every install layer. -/
def getCurrentStatus (m : SoftwareManager) : UpdateSOTAStatus :=
  let base : UpdateSOTAStatus :=
    { state := convertState m.currentState, error := m.updateErr,
      installLayers := [], removeLayers := [], installServices := [], removeServices := [] }
  match m.currentUpdate with
  | none => base
  | some cu =>
    if base.state = UpdState.noUpdate then base
    else
      let installL := cu.downloadLayers.map layerPlanInfo ++ cu.installLayers.map layerPlanInfo
      let removeL := cu.removeLayers.foldl (fun _ layer => installL ++ [removeLayerPlanInfo layer]) []
      { base with
        installLayers := installL
        removeLayers := removeL
        installServices :=
          cu.downloadServices.map servicePlanInfo ++ cu.installServices.map servicePlanInfo
        removeServices := cu.removeServices.map removeServicePlanInfo }

/-- Modelled from the spec: `validateTimetable` lives in the update-state-machine
file that is not under `src/`; per the spec's schedule format, validation
rejects entries whose `start ≥ finish` or whose day of week is out of range
(1..7). -/
def validateTimetable (timetable : List TimetableEntry) : Bool :=
  timetable.all fun entry =>
    1 ≤ entry.dayOfWeek && entry.dayOfWeek ≤ 7 && entry.start < entry.finish

/-- Outcome of one `newUpdate` call, mirroring its observable effects: the
error returns, adopting the update as current (`startNewUpdate`), the silent
no-op, the in-place reschedule (`scheduleUpdate`), or stashing the update as
pending (recording whether a cancel event was sent). -/
inductive NewUpdateOutcome where
  | wrongUpdateType
  | invalidTimetable
  | started
  | noop
  | rescheduled
  | pendingStashed (cancelSent : Bool)
deriving DecidableEq, Repr

/-- Default-type step of `softwareManager.newUpdate`: an empty schedule type
becomes `force`. -/
def defaultSchedule (s : ScheduleRule) : ScheduleRule :=
  if s.type = "" then { s with type := ForceUpdate } else s

/-- Embedding of `softwareManager.newUpdate` (`part_000` lines 1214-1275).
Returns `none` where the Go code would dereference a nil `CurrentUpdate`
(an active state with no current update, unreachable in practice).  The
install/remove list comparisons are `reflect.DeepEqual` on slices, which is
element-wise ordered equality. -/
def newUpdate (m : SoftwareManager) (update : SoftwareUpdate) :
    Option (SoftwareManager × NewUpdateOutcome) :=
  let upd := { update with schedule := defaultSchedule update.schedule }
  if upd.schedule.type = TimetableUpdate ∧ ¬ validateTimetable upd.schedule.timetable then
    some (m, NewUpdateOutcome.invalidTimetable)
  else if ¬ (upd.schedule.type = ForceUpdate ∨ upd.schedule.type = TriggerUpdate ∨
      upd.schedule.type = TimetableUpdate) then
    some (m, NewUpdateOutcome.wrongUpdateType)
  else
    match m.currentState with
    | UpdState.noUpdate =>
      some ({ m with currentUpdate := some upd }, NewUpdateOutcome.started)
    | _ =>
      match m.currentUpdate with
      | none => none
      | some cu =>
        if upd.installLayers = cu.installLayers ∧ upd.removeLayers = cu.removeLayers ∧
            upd.installServices = cu.installServices ∧ upd.removeServices = cu.removeServices ∧
            upd.schedule = cu.schedule then
          some (m, NewUpdateOutcome.noop)
        else if upd.installLayers = cu.installLayers ∧ upd.removeLayers = cu.removeLayers ∧
            upd.installServices = cu.installServices ∧ upd.removeServices = cu.removeServices ∧
            m.currentState = UpdState.readyToUpdate ∧ cu.schedule.type ≠ ForceUpdate then
          some ({ m with currentUpdate := some { cu with schedule := upd.schedule } },
            NewUpdateOutcome.rescheduled)
        else
          some ({ m with pendingUpdate := some upd },
            NewUpdateOutcome.pendingStashed (canTransit m.currentState UpdEvent.cancel))

/-- Service entry of the current users or the global list carrying an
`installed` status that matches a desired service by id and Aos version
(`processDesiredStatus`, service loops). -/
def hasInstalledService (services : List ServiceInfo) (desired : ServiceInfoFromCloud) : Bool :=
  services.any fun s =>
    desired.id = s.id && desired.aosVersion = s.aosVersion && s.status = InstalledStatus

/-- Desired-service classification loop of `softwareManager.processDesiredStatus`
(`part_000` lines 805-823): returns the download-services and install-services
lists. -/
def classifyDesiredServices (desired : List ServiceInfoFromCloud)
    (usersServices allServices : List ServiceInfo) :
    List ServiceInfoFromCloud × List ServiceInfoFromCloud :=
  match desired with
  | [] => ([], [])
  | d :: rest =>
    let (download, install) := classifyDesiredServices rest usersServices allServices
    if hasInstalledService usersServices d then (download, install)
    else if hasInstalledService allServices d then (download, d :: install)
    else (d :: download, install)

/-- Remove-services loop of `softwareManager.processDesiredStatus` (`part_000`
lines 825-838): every installed users' service absent by id from the desired
list is scheduled for removal. -/
def collectRemoveServices (desired : List ServiceInfoFromCloud)
    (usersServices : List ServiceInfo) : List ServiceInfo :=
  usersServices.filter fun u =>
    u.status = InstalledStatus && !(desired.any fun d => u.id = d.id)

/-- Services part of `softwareManager.processDesiredStatus`: the
(download, install, remove) service lists of the update it builds. -/
def processDesiredServices (desired : List ServiceInfoFromCloud)
    (usersServices allServices : List ServiceInfo) :
    List ServiceInfoFromCloud × List ServiceInfoFromCloud × List ServiceInfo :=
  let (download, install) := classifyDesiredServices desired usersServices allServices
  (download, install, collectRemoveServices desired usersServices)

/-! ## Software update manager: update phase (`softwareManager.update`)

The backend calls (`InstallLayer`, `InstallService`, `RemoveService`) are
oracles mapping the item to either a success payload or an error string.  The
per-item actions are dispatched through the action handler and joined by
`Wait()`; the embedding runs them in submission order, the one deterministic
schedule.  Besides the manager, each phase yields the error summary it
returns, the sequence of item keys it processed, and the sequence of error
strings handed to its `handleError` closure. -/

structure SWBackend where
  installLayerResult : LayerInfoFromCloud → Option String
  installServiceResult : ServiceInfoFromCloud → Except String String
  removeServiceResult : ServiceInfo → Option String
  cancelMarker : String → Bool

/-- Modelled from the spec: `isCancelError` lives in the update-state-machine
file that is not under `src/`; the spec says errors carrying the cancellation
marker are suppressed from the update-error summary, so the marker test is an
oracle `cancelMarker` of the backend. -/
def isCancelError (b : SWBackend) (errorStr : String) : Bool :=
  b.cancelMarker errorStr

def cantGetDownloadResult : String := "can't get download result"

/-- Error accumulation of the `handleError` closures: cancellation errors are
skipped, otherwise the first error wins. -/
def errStep (b : SWBackend) (err e : String) : String :=
  if isCancelError b e then err else if err = "" then e else err

/-- Result of one phase (and of the whole `update`): the threaded manager, the
error summary, the processed item keys in order, and the errors handed to
`handleError` in order. -/
structure PhaseResult where
  manager : SoftwareManager
  err : String
  attempts : List String
  raised : List String
deriving Repr

/-- The `handleError` closure of `installLayers`: record the error, suppress
cancellations, otherwise set the layer's error status and keep the first
error. -/
def handleErrorLayer (b : SWBackend) (pr : PhaseResult) (layer : LayerInfoFromCloud)
    (layerErr : String) : PhaseResult :=
  { pr with
    manager :=
      if isCancelError b layerErr then pr.manager
      else updateLayerStatusByID pr.manager layer.digest ErrorStatus layerErr
    err := errStep b pr.err layerErr
    raised := pr.raised ++ [layerErr] }

/-- The `handleError` closure of `installServices` and `removeServices`:
identical shape, but the status is routed through `updateStatusByID`. -/
def handleErrorService (b : SWBackend) (pr : PhaseResult) (id : String)
    (serviceErr : String) : PhaseResult :=
  { pr with
    manager :=
      if isCancelError b serviceErr then pr.manager
      else updateStatusByID pr.manager id ErrorStatus serviceErr
    err := errStep b pr.err serviceErr
    raised := pr.raised ++ [serviceErr] }

/-- Selection step of `installLayers` over `CurrentUpdate.DownloadLayers`
(`part_000` lines 1381-1406): a missing download result raises
"can't get download result", a failed download is skipped, a successful one is
queued for installation.  `DownloadResult` is never written during the phase,
so the lookup table `dr` is a fixed argument. -/
def selectLayerStep (b : SWBackend) (dr : List (String × DownloadResult))
    (acc : List LayerInfoFromCloud × PhaseResult) (layer : LayerInfoFromCloud) :
    List LayerInfoFromCloud × PhaseResult :=
  match dr.lookup layer.digest with
  | none => (acc.1, handleErrorLayer b acc.2 layer cantGetDownloadResult)
  | some result =>
    if result.error ≠ "" then acc
    else (acc.1 ++ [layer], acc.2)

/-- Execution step of `installLayers` (`part_000` lines 1410-1436): set
`installing`, submit the action, and on completion set `installed` or handle
the error. -/
def execLayerStep (b : SWBackend) (pr : PhaseResult) (layer : LayerInfoFromCloud) :
    PhaseResult :=
  let pr := { pr with
    manager := updateLayerStatusByID pr.manager layer.digest InstallingStatus ""
    attempts := pr.attempts ++ [layer.digest] }
  match b.installLayerResult layer with
  | some e => handleErrorLayer b pr layer e
  | none =>
    { pr with manager := updateLayerStatusByID pr.manager layer.digest InstalledStatus "" }

/-- Embedding of `softwareManager.installLayers` (`part_000` lines 1354-1441). -/
def installLayersPhase (b : SWBackend) (m : SoftwareManager) (cu : SoftwareUpdate) :
    PhaseResult :=
  let (selected, pr) :=
    cu.downloadLayers.foldl (selectLayerStep b m.downloadResult)
      ([], ⟨m, "", [], []⟩)
  (selected ++ cu.installLayers).foldl (execLayerStep b) pr

/-- Selection step of `installServices` over `CurrentUpdate.DownloadServices`
(`part_000` lines 1499-1524), mirroring `selectLayerStep`. -/
def selectServiceStep (b : SWBackend) (dr : List (String × DownloadResult))
    (acc : List ServiceInfoFromCloud × PhaseResult) (service : ServiceInfoFromCloud) :
    List ServiceInfoFromCloud × PhaseResult :=
  match dr.lookup service.id with
  | none => (acc.1, handleErrorService b acc.2 service.id cantGetDownloadResult)
  | some result =>
    if result.error ≠ "" then acc
    else (acc.1 ++ [service], acc.2)

/-- Execution step of `installServices` (`part_000` lines 1528-1554): set
`installing`, submit the action, and on completion record the state checksum
with `installed` or handle the error. -/
def execServiceStep (b : SWBackend) (pr : PhaseResult) (service : ServiceInfoFromCloud) :
    PhaseResult :=
  let pr := { pr with
    manager := updateServiceStatusByID pr.manager service.id InstallingStatus "" ""
    attempts := pr.attempts ++ [service.id] }
  match b.installServiceResult service with
  | Except.error e => handleErrorService b pr service.id e
  | Except.ok checksum =>
    { pr with manager :=
        updateServiceStatusByID pr.manager service.id InstalledStatus "" checksum }

/-- Embedding of `softwareManager.installServices` (`part_000` lines 1473-1559). -/
def installServicesPhase (b : SWBackend) (m : SoftwareManager) (cu : SoftwareUpdate) :
    PhaseResult :=
  let (selected, pr) :=
    cu.downloadServices.foldl (selectServiceStep b m.downloadResult)
      ([], ⟨m, "", [], []⟩)
  (selected ++ cu.installServices).foldl (execServiceStep b) pr

/-- Execution step of `removeServices` (`part_000` lines 1584-1617): create the
status entry, set `removing`, submit the action, and on completion set
`removed` or handle the error. -/
def removeServiceStep (b : SWBackend) (pr : PhaseResult) (service : ServiceInfo) :
    PhaseResult :=
  let entry : ServiceInfo :=
    { id := service.id, aosVersion := service.aosVersion,
      status := RemovingStatus, error := "", stateChecksum := "" }
  let m := { pr.manager with
    serviceStatuses := putAssoc pr.manager.serviceStatuses service.id entry }
  let pr := { pr with
    manager := updateServiceStatusByID m service.id RemovingStatus "" ""
    attempts := pr.attempts ++ [service.id] }
  match b.removeServiceResult service with
  | some e => handleErrorService b pr service.id e
  | none =>
    { pr with manager := updateServiceStatusByID pr.manager service.id RemovedStatus "" "" }

/-- Embedding of `softwareManager.removeServices` (`part_000` lines 1561-1622). -/
def removeServicesPhase (b : SWBackend) (m : SoftwareManager) (cu : SoftwareUpdate) :
    PhaseResult :=
  cu.removeServices.foldl (removeServiceStep b) ⟨m, "", [], []⟩

/-- Step of `removeLayers` (`part_000` lines 1444-1468): create the status
entry and set `removed` directly, with no backend call and no possible error. -/
def removeLayerStep (pr : PhaseResult) (layer : LayerInfo) : PhaseResult :=
  let entry : LayerInfo :=
    { id := layer.id, digest := layer.digest, aosVersion := layer.aosVersion,
      status := "", error := "" }
  let m := { pr.manager with
    layerStatuses := putAssoc pr.manager.layerStatuses layer.digest entry }
  { pr with
    manager := updateLayerStatusByID m layer.digest RemovedStatus ""
    attempts := pr.attempts ++ [layer.digest] }

/-- Embedding of `softwareManager.removeLayers` (`part_000` lines 1443-1471):
always returns the empty error string. -/
def removeLayersPhase (m : SoftwareManager) (cu : SoftwareUpdate) : PhaseResult :=
  cu.removeLayers.foldl removeLayerStep ⟨m, "", [], []⟩

/-- Embedding of `softwareManager.update` (`part_000` lines 1173-1208): the
four phases in source order, the first non-empty phase error becoming the
update error delivered with `finishUpdate`.  `none` models the nil dereference
on a missing current update. -/
def swUpdate (b : SWBackend) (m : SoftwareManager) : Option PhaseResult :=
  match m.currentUpdate with
  | none => none
  | some cu =>
    let p1 := installLayersPhase b m cu
    let p2 := installServicesPhase b p1.manager cu
    let p3 := removeServicesPhase b p2.manager cu
    let p4 := removeLayersPhase p3.manager cu
    let updateErr :=
      if p1.err ≠ "" then p1.err
      else if p2.err ≠ "" then p2.err
      else if p3.err ≠ "" then p3.err
      else p4.err
    some ⟨p4.manager, updateErr,
      p1.attempts ++ p2.attempts ++ p3.attempts ++ p4.attempts,
      p1.raised ++ p2.raised ++ p3.raised ++ p4.raised⟩

/-! Specification-side descriptions of the update phase, used to state claim
C7 independently of the fold above. -/

/-- Download layers whose artifact arrived: a download result exists and holds
no error. -/
def selectedDownloadLayers (dr : List (String × DownloadResult))
    (layers : List LayerInfoFromCloud) : List LayerInfoFromCloud :=
  layers.filter fun layer =>
    match dr.lookup layer.digest with
    | some result => result.error = ""
    | none => false

/-- Errors raised by the layer selection loop: one per missing download
result, in order. -/
def missingLayerErrors (dr : List (String × DownloadResult))
    (layers : List LayerInfoFromCloud) : List String :=
  layers.filterMap fun layer =>
    match dr.lookup layer.digest with
    | some _ => none
    | none => some cantGetDownloadResult

/-- Download services whose artifact arrived. -/
def selectedDownloadServices (dr : List (String × DownloadResult))
    (services : List ServiceInfoFromCloud) : List ServiceInfoFromCloud :=
  services.filter fun service =>
    match dr.lookup service.id with
    | some result => result.error = ""
    | none => false

/-- Errors raised by the service selection loop. -/
def missingServiceErrors (dr : List (String × DownloadResult))
    (services : List ServiceInfoFromCloud) : List String :=
  services.filterMap fun service =>
    match dr.lookup service.id with
    | some _ => none
    | none => some cantGetDownloadResult

/-- The item keys the update phase processes, in specification order:
install-layers, install-services, remove-services, remove-layers. -/
def expectedAttempts (m : SoftwareManager) (cu : SoftwareUpdate) :
    List String :=
  (selectedDownloadLayers m.downloadResult cu.downloadLayers ++ cu.installLayers).map
      (fun layer => layer.digest)
    ++ (selectedDownloadServices m.downloadResult cu.downloadServices
        ++ cu.installServices).map (fun service => service.id)
    ++ cu.removeServices.map (fun service => service.id)
    ++ cu.removeLayers.map (fun layer => layer.digest)

/-- Errors of the install service backend oracle, as they reach
`handleError`. -/
def serviceErrOf (b : SWBackend) (service : ServiceInfoFromCloud) : Option String :=
  match b.installServiceResult service with
  | Except.error e => some e
  | Except.ok _ => none

/-- The per-item errors of the whole update phase, in raise order. -/
def expectedRaised (b : SWBackend) (m : SoftwareManager) (cu : SoftwareUpdate) :
    List String :=
  missingLayerErrors m.downloadResult cu.downloadLayers
    ++ (selectedDownloadLayers m.downloadResult cu.downloadLayers
        ++ cu.installLayers).filterMap b.installLayerResult
    ++ missingServiceErrors m.downloadResult cu.downloadServices
    ++ (selectedDownloadServices m.downloadResult cu.downloadServices
        ++ cu.installServices).filterMap (serviceErrOf b)
    ++ cu.removeServices.filterMap b.removeServiceResult

/-- First element of a list of error strings that is not a cancellation
error, or the empty summary. -/
def firstNonCancel (b : SWBackend) (raised : List String) : String :=
  match raised.filter (fun e => !isCancelError b e) with
  | [] => ""
  | e :: _ => e

/-! ## Action handler (`vendor/.../utils/action/action.go`)

The handler's observable state is the pair of queues of action ids: `work`
(running) and `wait` (queued).  A run is a sequence of `exec id` calls
(`Handler.Execute`) and completions `fin i` of the running action at position
`i` (the tail of `Handler.processAction` after `doAction` returns). -/

def maxConcurrentActions : Nat := 10

structure ActionState where
  work : List String
  wait : List String
deriving DecidableEq, Repr

/-- Embedding of `Handler.Execute` (`action.go` lines 60-82): an id already in
the work queue, or a full work queue, goes to the back of the wait queue;
otherwise the action starts (joins the work queue). -/
def actionExecute (maxConcurrent : Nat) (s : ActionState) (id : String) : ActionState :=
  if s.work.contains id then { s with wait := s.wait ++ [id] }
  else if maxConcurrent ≤ s.work.length then { s with wait := s.wait ++ [id] }
  else { s with work := s.work ++ [id] }

/-- Promotion scan of `Handler.processAction` (`action.go` lines 115-123):
walk the wait queue front to back and move the first entry whose id is not in
the work queue to the back of the work queue. -/
def promoteFromWait (work : List String) : List String → List String × List String
  | [] => (work, [])
  | w :: rest =>
    if work.contains w then
      let (work2, rest2) := promoteFromWait work rest
      (work2, w :: rest2)
    else (work ++ [w], rest)

/-- Embedding of the completion half of `Handler.processAction` (`action.go`
lines 110-123): remove the finished entry from the work queue, then promote
from the wait queue. -/
def actionComplete (s : ActionState) (i : Nat) : ActionState :=
  let work1 := s.work.eraseIdx i
  let (work2, wait2) := promoteFromWait work1 s.wait
  ⟨work2, wait2⟩

inductive ActionCmd where
  | exec (id : String)
  | fin (i : Nat)
deriving DecidableEq, Repr

/-- One external event of the handler.  A completion is only meaningful for a
running action, so out-of-range indices are ignored. -/
def actionStep (maxConcurrent : Nat) (s : ActionState) : ActionCmd → ActionState
  | ActionCmd.exec id => actionExecute maxConcurrent s id
  | ActionCmd.fin i => if i < s.work.length then actionComplete s i else s

/-- A run of the handler from its initial empty state. -/
def runActions (maxConcurrent : Nat) (cmds : List ActionCmd) : ActionState :=
  cmds.foldl (actionStep maxConcurrent) ⟨[], []⟩

/-! ## UM controller (`umcontroller` package) -/

/-- Projection of `cloudprotocol.ComponentInfo` as held in
`Controller.currentComponents`. -/
structure ComponentInfo where
  id : String
  vendorVersion : String
  aosVersion : Nat
  status : String
  error : String
deriving DecidableEq, Repr

/-- Embedding of `umcontroller.SystemComponent`; the hash/size/annotation
payload is carried opaquely. -/
structure SystemComponent where
  id : String
  vendorVersion : String
  aosVersion : Nat
  url : String
deriving DecidableEq, Repr

/-- Embedding of `systemComponentStatus`. -/
structure SystemComponentStatus where
  id : String
  vendorVersion : String
  aosVersion : Nat
  status : String
  err : String
deriving DecidableEq, Repr

/-- Projection of `cloudprotocol.ComponentInfoFromCloud`: `url` stands for
`URLs[0]`, the only URL the controller reads. -/
structure ComponentInfoFromCloud where
  id : String
  vendorVersion : String
  aosVersion : Nat
  url : String
deriving DecidableEq, Repr

/-- Projection of `umConnection`: the fields `UpdateComponents` touches. -/
structure UMConnection where
  umID : String
  isLocalClient : Bool
  components : List String
  updatePackages : List SystemComponent
deriving DecidableEq, Repr

/-- The UM controller FSM states (`part_000` lines 1771-1783). -/
inductive CtrlState where
  | init
  | idle
  | fault
  | prepareUpdate
  | updateUmStatusOnPrepareUpdate
  | startUpdate
  | updateUmStatusOnStartUpdate
  | startApply
  | updateUmStatusOnStartApply
  | startRevert
  | updateUmStatusOnRevert
deriving DecidableEq, Repr

/-- The UM controller FSM events relevant to `UpdateComponents`. -/
inductive CtrlEvent where
  | updateRequest
  | updateFailed
deriving DecidableEq, Repr

/-- The controller state `UpdateComponents` reads and writes. -/
structure ControllerState where
  connections : List UMConnection
  currentComponents : List ComponentInfo
  fsmState : CtrlState
  updateError : Option String
  storedUpdateInfo : List SystemComponent
deriving DecidableEq, Repr

/-- Index of the first current-components entry matching the reported id and
vendor version (`updateComponentElement`'s scan). -/
def findComponentIdx : List ComponentInfo → SystemComponentStatus → Option Nat
  | [], _ => none
  | e :: rest, component =>
    if e.id = component.id ∧ e.vendorVersion = component.vendorVersion then some 0
    else (findComponentIdx rest component).map (· + 1)

/-- The fresh entry `updateComponentElement` appends when no matching entry is
updated in place. -/
def componentEntry (component : SystemComponentStatus) : ComponentInfo :=
  { id := component.id, vendorVersion := component.vendorVersion,
    aosVersion := component.aosVersion, status := component.status,
    error := component.err }

/-- Embedding of `Controller.updateComponentElement` (`part_000` lines
2133-2156): the first entry with the reported id and vendor version is updated
in place when its status changes — unless it is `installed` and the report is
not, in which case the loop breaks and a fresh entry is appended; with no
matching entry a fresh entry is appended. -/
def updateComponentElement (cs : List ComponentInfo) (component : SystemComponentStatus) :
    List ComponentInfo :=
  match findComponentIdx cs component with
  | some i =>
    match cs.get? i with
    | none => cs
    | some e =>
      if e.status = InstalledStatus ∧ component.status ≠ InstalledStatus then
        cs ++ [componentEntry component]
      else if e.status ≠ component.status then
        cs.set i { e with status := component.status, error := component.err }
      else cs
  | none => cs ++ [componentEntry component]

/-- Embedding of `Controller.addComponentForUpdateToUm` (`part_000` lines
2223-2242): scan the connections in order for the first one owning the
component id, translate the URL for it, and append the package to that slot;
no owner yields the "component id %s not found" error. -/
def addComponentForUpdateToUm (translate : Bool → String → Except String String) :
    List UMConnection → SystemComponent → Except String (List UMConnection)
  | [], info => Except.error ("component id " ++ info.id ++ " not found")
  | conn :: rest, info =>
    if conn.components.contains info.id then
      match translate conn.isLocalClient info.url with
      | Except.error e => Except.error e
      | Except.ok newURL =>
        Except.ok ({ conn with
          updatePackages := conn.updatePackages ++ [{ info with url := newURL }] } :: rest)
    else
      match addComponentForUpdateToUm translate rest info with
      | Except.error e => Except.error e
      | Except.ok rest2 => Except.ok (conn :: rest2)

/-- Result of one `Controller.UpdateComponents` call: the controller state at
return (or at the point the call blocks), the returned components and error,
the FSM events the call emitted, and whether it blocked on the update-finish
condition variable. -/
structure UCResult where
  ctrl : ControllerState
  retComponents : List ComponentInfo
  retError : Option String
  events : List CtrlEvent
  waited : Bool
deriving Repr

/-- Distribution loop of `UpdateComponents` (`part_000` lines 1942-1957):
returns the final controller state and accumulated plan, or the state at the
failing component together with the error. -/
def distributeComponents (translate : Bool → String → Except String String)
    (c : ControllerState) (plan : List SystemComponent) :
    List ComponentInfoFromCloud →
    Except (ControllerState × String) (ControllerState × List SystemComponent)
  | [] => Except.ok (c, plan)
  | component :: rest =>
    let componentStatus : SystemComponentStatus :=
      { id := component.id, vendorVersion := component.vendorVersion,
        aosVersion := component.aosVersion, status := DownloadedStatus, err := "" }
    let componentInfo : SystemComponent :=
      { id := component.id, vendorVersion := component.vendorVersion,
        aosVersion := component.aosVersion, url := component.url }
    match addComponentForUpdateToUm translate c.connections componentInfo with
    | Except.error e => Except.error (c, e)
    | Except.ok conns =>
      let c2 := { c with
        connections := conns
        currentComponents := updateComponentElement c.currentComponents componentStatus }
      distributeComponents translate c2 (plan ++ [componentInfo]) rest

/-- Embedding of `Controller.UpdateComponents` (`part_000` lines 1927-1974).
In the idle state the update error is reset; an empty component list returns
immediately; otherwise the components are distributed to their owning UM
slots, the plan is persisted, `updateRequest` is emitted, and the call blocks
on the update-finish condition.  Outside idle the call blocks directly.  The
state and return values at a blocking point are those visible when the wait
begins. -/
def updateComponents (translate : Bool → String → Except String String)
    (c : ControllerState) (components : List ComponentInfoFromCloud) : UCResult :=
  if c.fsmState = CtrlState.idle then
    let c0 := { c with updateError := none }
    if components.length = 0 then
      { ctrl := c0, retComponents := c0.currentComponents, retError := none,
        events := [], waited := false }
    else
      match distributeComponents translate c0 [] components with
      | Except.error (c1, e) =>
        { ctrl := c1, retComponents := c1.currentComponents, retError := some e,
          events := [], waited := false }
      | Except.ok (c1, plan) =>
        let c2 := { c1 with storedUpdateInfo := plan }
        { ctrl := c2, retComponents := c2.currentComponents,
          retError := c2.updateError, events := [CtrlEvent.updateRequest], waited := true }
  else
    { ctrl := c, retComponents := c.currentComponents, retError := c.updateError,
      events := [], waited := true }

/-- Bounded substring test used to state claim C8's "message contains"; a
plain list-segment search over the characters. -/
def segAt (pat s : List Char) : Bool :=
  match pat, s with
  | [], _ => true
  | _ :: _, [] => false
  | p :: ps, c :: cs => p = c && segAt ps cs

def containsSeg (s pat : List Char) : Bool :=
  match s with
  | [] => pat.isEmpty
  | _ :: rest => segAt pat s || containsSeg rest pat

def strContainsSubstr (s pat : String) : Bool :=
  containsSeg s.data pat.data

/-! ## Concrete instances used to evaluate the claims -/

/-- An in-flight update A: two install services, `trigger` schedule. -/
def c2updateA : SoftwareUpdate :=
  { schedule := ⟨"trigger", 0, []⟩, downloadServices := [],
    installServices := [⟨"s1", 1⟩, ⟨"s2", 1⟩], removeServices := [],
    downloadLayers := [], installLayers := [], removeLayers := [] }

/-- A superseding update B: the same install services in the opposite order
and a different schedule. -/
def c2updateB : SoftwareUpdate :=
  { schedule := ⟨"trigger", 100, []⟩, downloadServices := [],
    installServices := [⟨"s2", 1⟩, ⟨"s1", 1⟩], removeServices := [],
    downloadLayers := [], installLayers := [], removeLayers := [] }

/-- A software manager in `readyToUpdate` with A current. -/
def c2manager : SoftwareManager :=
  { currentState := UpdState.readyToUpdate, updateErr := "",
    currentUpdate := some c2updateA, pendingUpdate := none,
    layerStatuses := [], serviceStatuses := [], downloadResult := [], stored := none }

/-- A backend for exercising the update phase: installing layer digest `d1`
fails, everything else succeeds. -/
def c7backend : SWBackend :=
  { installLayerResult := fun l => if l.digest = "d1" then some "boom" else none,
    installServiceResult := fun _ => Except.ok "chk",
    removeServiceResult := fun _ => none,
    cancelMarker := fun e => e = "cancelled" }

/-- An update plan with one install layer, one install service and one remove
service. -/
def c7update : SoftwareUpdate :=
  { schedule := ⟨"force", 0, []⟩, downloadServices := [],
    installServices := [⟨"s1", 1⟩], removeServices := [⟨"s0", 1, "installed", "", ""⟩],
    downloadLayers := [], installLayers := [⟨"l1", "d1", 1⟩], removeLayers := [] }

/-- A software manager in the updating state carrying `c7update`. -/
def c7manager : SoftwareManager :=
  { currentState := UpdState.updating, updateErr := "",
    currentUpdate := some c7update, pendingUpdate := none,
    layerStatuses := [], serviceStatuses := [], downloadResult := [], stored := none }

/-! ## Theorems -/

theorem updateStatusLoop_append (d : StatusDescriptor) :
    ∀ s : List StatusDescriptor, (∀ e ∈ s, e.version ≠ d.version) →
      updateStatusLoop d s = s ++ [d] := by
  intro s
  induction s with
  | nil => intro _; rfl
  | cons a rest ih =>
    intro h
    have ha : a.version ≠ d.version := h a (List.mem_cons_self a rest)
    simp only [updateStatusLoop, if_neg ha]
    rw [ih fun e he => h e (List.mem_cons_of_mem a he)]
    rfl

theorem updateStatusLoop_replace (d : StatusDescriptor) :
    ∀ s : List StatusDescriptor, (∃ e ∈ s, e.version = d.version) →
      ∃ i e, s.get? i = some e ∧ e.version = d.version ∧
        (∀ j e2, j < i → s.get? j = some e2 → e2.version ≠ d.version) ∧
        updateStatusLoop d s = s.set i d := by
  intro s
  induction s with
  | nil => rintro ⟨e, he, _⟩; cases he
  | cons a rest ih =>
    intro h
    by_cases ha : a.version = d.version
    · refine ⟨0, a, rfl, ha, ?_, ?_⟩
      · intro j e2 hj _; omega
      · simp only [updateStatusLoop, if_pos ha, List.set]
    · obtain ⟨e, he, hev⟩ := h
      rcases List.mem_cons.mp he with rfl | he2
      · exact absurd hev ha
      · obtain ⟨i, e1, hget, hev1, hmin, heq⟩ := ih ⟨e, he2, hev⟩
        refine ⟨i + 1, e1, hget, hev1, ?_, ?_⟩
        · intro j e2 hj hg
          cases j with
          | zero =>
            have : a = e2 := by simpa using hg
            rw [← this]; exact ha
          | succ j2 => exact hmin j2 e2 (Nat.lt_of_succ_lt_succ hj) hg
        · simp only [updateStatusLoop, if_neg ha, heq, List.set]

/-- C1: one application of the aggregator's `updateStatus`: an `installed`
descriptor collapses the collection to exactly that descriptor; otherwise a
same-version element (the first such) is replaced in place leaving the length
unchanged, and with no same-version element the descriptor is appended. -/
theorem claim_C1_updateStatus (s : List StatusDescriptor) (d : StatusDescriptor) :
    (d.status = InstalledStatus → updateStatus s d = [d]) ∧
    (d.status ≠ InstalledStatus → (∃ e ∈ s, e.version = d.version) →
      ∃ i e, s.get? i = some e ∧ e.version = d.version ∧
        (∀ j e2, j < i → s.get? j = some e2 → e2.version ≠ d.version) ∧
        updateStatus s d = s.set i d ∧ (updateStatus s d).length = s.length) ∧
    (d.status ≠ InstalledStatus → (∀ e ∈ s, e.version ≠ d.version) →
      updateStatus s d = s ++ [d]) := by
  refine ⟨fun h => ?_, fun h hex => ?_, fun h hall => ?_⟩
  · simp only [updateStatus, if_pos h]
  · obtain ⟨i, e, hget, hev, hmin, heq⟩ := updateStatusLoop_replace d s hex
    have hres : updateStatus s d = s.set i d := by
      simp only [updateStatus, if_neg h]; exact heq
    refine ⟨i, e, hget, hev, hmin, hres, ?_⟩
    rw [hres, List.length_set]
  · simp only [updateStatus, if_neg h]
    exact updateStatusLoop_append d s hall

theorem claim_C1_witness :
    updateStatus [⟨"downloading", "1"⟩, ⟨"error", "2"⟩] ⟨"error", "3"⟩ =
      [⟨"downloading", "1"⟩, ⟨"error", "2"⟩, ⟨"error", "3"⟩] :=
  (claim_C1_updateStatus [⟨"downloading", "1"⟩, ⟨"error", "2"⟩] ⟨"error", "3"⟩).2.2
    (by decide) (by decide)

/-- C3: a cancel transition overwrites, entry by entry, every layer and
service status that is not already `error` with `error` and the cancellation
reason (clearing the service checksum), leaves already-`error` entries
untouched, makes every remaining status `error`, and only then records the
new state and error and persists the overwritten snapshot. -/
theorem claim_C3_cancelSweep (m : SoftwareManager) (state : UpdState) (updateErr : String) :
    (∀ i id info, m.layerStatuses.get? i = some (id, info) → info.status ≠ ErrorStatus →
      (stateChanged m UpdEvent.cancel state updateErr).layerStatuses.get? i =
        some (id, { info with status := ErrorStatus, error := updateErr })) ∧
    (∀ i id info, m.layerStatuses.get? i = some (id, info) → info.status = ErrorStatus →
      (stateChanged m UpdEvent.cancel state updateErr).layerStatuses.get? i =
        some (id, info)) ∧
    (∀ i id info, m.serviceStatuses.get? i = some (id, info) → info.status ≠ ErrorStatus →
      (stateChanged m UpdEvent.cancel state updateErr).serviceStatuses.get? i =
        some (id, { info with status := ErrorStatus, error := updateErr, stateChecksum := "" })) ∧
    (∀ i id info, m.serviceStatuses.get? i = some (id, info) → info.status = ErrorStatus →
      (stateChanged m UpdEvent.cancel state updateErr).serviceStatuses.get? i =
        some (id, info)) ∧
    (∀ p ∈ (stateChanged m UpdEvent.cancel state updateErr).layerStatuses,
      p.2.status = ErrorStatus) ∧
    (∀ p ∈ (stateChanged m UpdEvent.cancel state updateErr).serviceStatuses,
      p.2.status = ErrorStatus) ∧
    (stateChanged m UpdEvent.cancel state updateErr).currentState = state ∧
    (stateChanged m UpdEvent.cancel state updateErr).updateErr = updateErr ∧
    (stateChanged m UpdEvent.cancel state updateErr).stored =
      some ⟨state, updateErr,
        (stateChanged m UpdEvent.cancel state updateErr).layerStatuses,
        (stateChanged m UpdEvent.cancel state updateErr).serviceStatuses⟩ := by
  have hl : (stateChanged m UpdEvent.cancel state updateErr).layerStatuses =
      cancelSweepLayers updateErr m.layerStatuses := by
    simp [stateChanged]
  have hs : (stateChanged m UpdEvent.cancel state updateErr).serviceStatuses =
      cancelSweepServices updateErr m.serviceStatuses := by
    simp [stateChanged]
  refine ⟨?_, ?_, ?_, ?_, ?_, ?_, rfl, rfl, rfl⟩
  · intro i id info hget hne
    rw [hl]
    rw [List.get?_eq_getElem?] at hget
    simp only [cancelSweepLayers, List.get?_eq_getElem?, List.getElem?_map, hget,
      Option.map_some]
    simp [hne]
  · intro i id info hget he
    rw [hl]
    rw [List.get?_eq_getElem?] at hget
    simp only [cancelSweepLayers, List.get?_eq_getElem?, List.getElem?_map, hget,
      Option.map_some]
    simp [he]
  · intro i id info hget hne
    rw [hs]
    rw [List.get?_eq_getElem?] at hget
    simp only [cancelSweepServices, List.get?_eq_getElem?, List.getElem?_map, hget,
      Option.map_some]
    simp [hne]
  · intro i id info hget he
    rw [hs]
    rw [List.get?_eq_getElem?] at hget
    simp only [cancelSweepServices, List.get?_eq_getElem?, List.getElem?_map, hget,
      Option.map_some]
    simp [he]
  · intro p hp
    rw [hl] at hp
    simp only [cancelSweepServices, cancelSweepLayers] at hp
    obtain ⟨q, _, hq⟩ := List.mem_map.mp hp
    by_cases h : q.2.status = ErrorStatus
    · rw [← hq]; simp [h]
    · rw [← hq]; simp [h]
  · intro p hp
    rw [hs] at hp
    simp only [cancelSweepServices] at hp
    obtain ⟨q, _, hq⟩ := List.mem_map.mp hp
    by_cases h : q.2.status = ErrorStatus
    · rw [← hq]; simp [h]
    · rw [← hq]; simp [h]

theorem claim_C3_witness :
    (stateChanged
      { currentState := UpdState.downloading, updateErr := "", currentUpdate := none,
        pendingUpdate := none,
        layerStatuses := [("d1", ⟨"l1", "d1", 1, "downloading", ""⟩)],
        serviceStatuses := [("s1", ⟨"s1", 2, "installing", "", "c"⟩)],
        downloadResult := [], stored := none }
      UpdEvent.cancel UpdState.noUpdate "cancelled").layerStatuses.get? 0 =
      some ("d1", ⟨"l1", "d1", 1, "error", "cancelled"⟩) :=
  (claim_C3_cancelSweep
    { currentState := UpdState.downloading, updateErr := "", currentUpdate := none,
      pendingUpdate := none,
      layerStatuses := [("d1", ⟨"l1", "d1", 1, "downloading", ""⟩)],
      serviceStatuses := [("s1", ⟨"s1", 2, "installing", "", "c"⟩)],
      downloadResult := [], stored := none }
    UpdState.noUpdate "cancelled").1 0 "d1" ⟨"l1", "d1", 1, "downloading", ""⟩
    (by decide) (by decide)

theorem findComponentIdx_none :
    ∀ (cs : List ComponentInfo) (c : SystemComponentStatus),
      findComponentIdx cs c = none → ∀ k f, cs.get? k = some f →
        ¬ (f.id = c.id ∧ f.vendorVersion = c.vendorVersion) := by
  intro cs
  induction cs with
  | nil => intro c _ k f hf; simp at hf
  | cons a rest ih =>
    intro c hnone k f hf
    by_cases ha : a.id = c.id ∧ a.vendorVersion = c.vendorVersion
    · simp [findComponentIdx, ha] at hnone
    · cases k with
      | zero =>
        have : a = f := by simpa using hf
        rw [← this]; exact ha
      | succ k2 =>
        simp only [findComponentIdx, if_neg ha] at hnone
        cases hx : findComponentIdx rest c with
        | none => exact ih c hx k2 f (by simpa using hf)
        | some j2 => rw [hx] at hnone; simp at hnone

theorem findComponentIdx_some :
    ∀ (cs : List ComponentInfo) (c : SystemComponentStatus) (j : Nat),
      findComponentIdx cs c = some j → ∃ f, cs.get? j = some f ∧
        f.id = c.id ∧ f.vendorVersion = c.vendorVersion := by
  intro cs
  induction cs with
  | nil => intro c j h; simp [findComponentIdx] at h
  | cons a rest ih =>
    intro c j h
    by_cases ha : a.id = c.id ∧ a.vendorVersion = c.vendorVersion
    · simp only [findComponentIdx, if_pos ha, Option.some.injEq] at h
      exact ⟨a, by simp [← h], ha.1, ha.2⟩
    · simp only [findComponentIdx, if_neg ha] at h
      cases hx : findComponentIdx rest c with
      | none => rw [hx] at h; simp at h
      | some j2 =>
        rw [hx] at h
        simp at h
        obtain ⟨f, hget, h1, h2⟩ := ih c j2 hx
        refine ⟨f, ?_, h1, h2⟩
        rw [← h]
        simpa using hget

/-- C9: an `installed` entry of the controller's current-components list is
never modified in place by a later status report for the same id and vendor
version carrying a different status: its slot is unchanged after
`updateComponentElement`. -/
theorem claim_C9_installedNeverDowngraded (cs : List ComponentInfo)
    (component : SystemComponentStatus) (i : Nat) (e : ComponentInfo)
    (hget : cs.get? i = some e) (hid : e.id = component.id)
    (hver : e.vendorVersion = component.vendorVersion)
    (hinst : e.status = InstalledStatus) (hne : component.status ≠ InstalledStatus) :
    (updateComponentElement cs component).get? i = some e := by
  have hi : i < cs.length := (List.get?_eq_some.mp hget).1
  cases hfind : findComponentIdx cs component with
  | none => exact absurd ⟨hid, hver⟩ (findComponentIdx_none cs component hfind i e hget)
  | some j =>
    obtain ⟨f, hfget, hfid, hfver⟩ := findComponentIdx_some cs component j hfind
    rw [updateComponentElement, hfind]
    simp only [hfget]
    by_cases hf1 : f.status = InstalledStatus ∧ component.status ≠ InstalledStatus
    · rw [if_pos hf1]
      rw [List.get?_eq_getElem?] at hget ⊢
      rw [List.getElem?_append_left hi]
      exact hget
    · rw [if_neg hf1]
      have hij : i ≠ j := by
        intro hij
        rw [hij] at hget
        rw [hget] at hfget
        have : e = f := by injection hfget
        rw [← this] at hf1
        exact hf1 ⟨hinst, hne⟩
      by_cases hf2 : f.status ≠ component.status
      · rw [if_pos hf2]
        rw [List.get?_eq_getElem?] at hget ⊢
        rw [List.getElem?_set_ne (fun h => hij h.symm)]
        exact hget
      · rw [if_neg hf2]
        exact hget

theorem claim_C9_witness :
    (updateComponentElement
      [⟨"c1", "v1", 1, "installed", ""⟩] ⟨"c1", "v1", 1, "error", "boom"⟩).get? 0 =
      some ⟨"c1", "v1", 1, "installed", ""⟩ :=
  claim_C9_installedNeverDowngraded [⟨"c1", "v1", 1, "installed", ""⟩]
    ⟨"c1", "v1", 1, "error", "boom"⟩ 0 ⟨"c1", "v1", 1, "installed", ""⟩
    (by decide) (by decide) (by decide) (by decide) (by decide)

/-- C10: in the idle state with an empty components list, `UpdateComponents`
resets the stored update error and returns the current components with no
error, emitting no FSM event, writing nothing to storage, and not blocking on
the update-finish condition. -/
theorem claim_C10_emptyIdle (translate : Bool → String → Except String String)
    (c : ControllerState) (h : c.fsmState = CtrlState.idle) :
    updateComponents translate c [] =
      { ctrl := { c with updateError := none },
        retComponents := c.currentComponents, retError := none,
        events := [], waited := false } := by
  simp [updateComponents, h]

theorem claim_C10_witness :
    updateComponents (fun _ url => Except.ok url)
      { connections := [], currentComponents := [⟨"c1", "v1", 1, "installed", ""⟩],
        fsmState := CtrlState.idle, updateError := some "old", storedUpdateInfo := [] }
      [] =
      { ctrl :=
          { connections := [], currentComponents := [⟨"c1", "v1", 1, "installed", ""⟩],
            fsmState := CtrlState.idle, updateError := none, storedUpdateInfo := [] },
        retComponents := [⟨"c1", "v1", 1, "installed", ""⟩], retError := none,
        events := [], waited := false } :=
  claim_C10_emptyIdle (fun _ url => Except.ok url)
    { connections := [], currentComponents := [⟨"c1", "v1", 1, "installed", ""⟩],
      fsmState := CtrlState.idle, updateError := some "old", storedUpdateInfo := [] }
    rfl

theorem addComponentForUpdateToUm_notFound (translate : Bool → String → Except String String)
    (info : SystemComponent) :
    ∀ conns : List UMConnection, (∀ conn ∈ conns, info.id ∉ conn.components) →
      addComponentForUpdateToUm translate conns info =
        Except.error ("component id " ++ info.id ++ " not found") := by
  intro conns
  induction conns with
  | nil => intro _; rfl
  | cons conn rest ih =>
    intro h
    have hc : conn.components.contains info.id = false := by
      simpa using h conn (List.mem_cons_self conn rest)
    simp only [addComponentForUpdateToUm, hc, Bool.false_eq_true, if_false]
    rw [ih fun c hc2 => h c (List.mem_cons_of_mem conn hc2)]

/-- C8 (amended): `UpdateComponents` in the idle state on a component whose id
no registered UM owns returns the current components snapshot together with
the error message "component id <id> not found" — the id is interpolated
between the two phrases — and emits no FSM event, persists nothing, and does
not block. -/
theorem claim_C8_unknownComponent (translate : Bool → String → Except String String)
    (c : ControllerState) (comp : ComponentInfoFromCloud)
    (hidle : c.fsmState = CtrlState.idle)
    (hno : ∀ conn ∈ c.connections, comp.id ∉ conn.components) :
    updateComponents translate c [comp] =
      { ctrl := { c with updateError := none },
        retComponents := c.currentComponents,
        retError := some ("component id " ++ comp.id ++ " not found"),
        events := [], waited := false } := by
  have hadd := addComponentForUpdateToUm_notFound translate
    { id := comp.id, vendorVersion := comp.vendorVersion,
      aosVersion := comp.aosVersion, url := comp.url } c.connections hno
  simp [updateComponents, hidle, distributeComponents, hadd]

theorem claim_C8_witness :
    updateComponents (fun _ url => Except.ok url)
      { connections := [⟨"um1", true, ["c1"], []⟩], currentComponents := [],
        fsmState := CtrlState.idle, updateError := none, storedUpdateInfo := [] }
      [⟨"c2", "v2", 1, "http:u"⟩] =
      { ctrl :=
          { connections := [⟨"um1", true, ["c1"], []⟩], currentComponents := [],
            fsmState := CtrlState.idle, updateError := none, storedUpdateInfo := [] },
        retComponents := [],
        retError := some ("component id " ++ "c2" ++ " not found"),
        events := [], waited := false } :=
  claim_C8_unknownComponent (fun _ url => Except.ok url)
    { connections := [⟨"um1", true, ["c1"], []⟩], currentComponents := [],
      fsmState := CtrlState.idle, updateError := none, storedUpdateInfo := [] }
    ⟨"c2", "v2", 1, "http:u"⟩ rfl (by decide)

/-- C8, the claim as frozen, is false at a concrete input: the returned error
message interpolates the component id between "component id" and "not found",
so it does not contain the contiguous phrase "component id not found". -/
theorem claim_C8_counterexample :
    (updateComponents (fun _ url => Except.ok url)
      { connections := [⟨"um1", true, ["c1"], []⟩], currentComponents := [],
        fsmState := CtrlState.idle, updateError := none, storedUpdateInfo := [] }
      [⟨"c2", "v2", 1, "http:u"⟩]).retError = some "component id c2 not found" ∧
    strContainsSubstr "component id c2 not found" "component id not found" = false := by
  constructor
  · rfl
  · decide

/-- C4: evaluation exhibiting the remove-layers slip of `getCurrentStatus`
(`part_000` line 750, `status.RemoveLayers = append(status.InstallLayers, ...)`):
with one install layer `l1` and one remove layer `l2` planned, the broadcast
`RemoveLayers` list is `[l1, l2]` — the install layer leaks into it — instead
of exactly the remove-layers plan `[l2]`. -/
theorem claim_C4_removeLayersBug :
    (getCurrentStatus
      { currentState := UpdState.downloading, updateErr := "",
        currentUpdate := some
          { schedule := ⟨"force", 0, []⟩,
            downloadServices := [], installServices := [], removeServices := [],
            downloadLayers := [], installLayers := [⟨"l1", "d1", 1⟩],
            removeLayers := [⟨"l2", "d2", 2, "installed", ""⟩] },
        pendingUpdate := none, layerStatuses := [], serviceStatuses := [],
        downloadResult := [], stored := none }).removeLayers =
      [⟨"l1", "d1", 1, "", ""⟩, ⟨"l2", "d2", 2, "", ""⟩] ∧
    (getCurrentStatus
      { currentState := UpdState.downloading, updateErr := "",
        currentUpdate := some
          { schedule := ⟨"force", 0, []⟩,
            downloadServices := [], installServices := [], removeServices := [],
            downloadLayers := [], installLayers := [⟨"l1", "d1", 1⟩],
            removeLayers := [⟨"l2", "d2", 2, "installed", ""⟩] },
        pendingUpdate := none, layerStatuses := [], serviceStatuses := [],
        downloadResult := [], stored := none }).removeLayers ≠
      [removeLayerPlanInfo ⟨"l2", "d2", 2, "installed", ""⟩] := by
  constructor
  · decide
  · decide

/-- C2, the claim as frozen, is false at a concrete input: update B's
install/remove lists are permutations of (hence equal as sets to) in-flight
update A's, A is in `readyToUpdate` with a non-`force` schedule, yet
`newUpdate` stashes B as pending and emits a cancel instead of keeping A
current with B's schedule, because `reflect.DeepEqual` compares the slices in
order. -/
theorem claim_C2_counterexample :
    c2updateB.installServices.Perm c2updateA.installServices ∧
    c2updateB.removeServices = c2updateA.removeServices ∧
    c2updateB.installLayers = c2updateA.installLayers ∧
    c2updateB.removeLayers = c2updateA.removeLayers ∧
    c2manager.currentState = UpdState.readyToUpdate ∧
    c2manager.currentUpdate = some c2updateA ∧
    c2updateA.schedule.type ≠ ForceUpdate ∧
    c2updateB.schedule ≠ c2updateA.schedule ∧
    newUpdate c2manager c2updateB =
      some ({ c2manager with pendingUpdate := some c2updateB },
        NewUpdateOutcome.pendingStashed true) := by
  refine ⟨?_, ?_, ?_, ?_, ?_, ?_, ?_, ?_, ?_⟩ <;> decide

/-- C2 (amended): when B's install and remove lists are element-wise equal
(same order) to in-flight update A's, then after schedule-type defaulting:
an unchanged schedule makes the call a silent no-op (B is dropped, not
pended); a changed schedule in `readyToUpdate` with A's schedule not `force`
swaps the schedule in place and B does not become pending; in every other
active state, or when A's schedule is `force`, B is stashed as pending with a
cancel emitted (cancel is legal in every active state). -/
theorem claim_C2_supersession (m : SoftwareManager) (cu upd : SoftwareUpdate)
    (hcu : m.currentUpdate = some cu) (hactive : m.currentState ≠ UpdState.noUpdate)
    (hty : (defaultSchedule upd.schedule).type = ForceUpdate ∨
      (defaultSchedule upd.schedule).type = TriggerUpdate ∨
      ((defaultSchedule upd.schedule).type = TimetableUpdate ∧
        validateTimetable upd.schedule.timetable))
    (hIL : upd.installLayers = cu.installLayers)
    (hRL : upd.removeLayers = cu.removeLayers)
    (hIS : upd.installServices = cu.installServices)
    (hRS : upd.removeServices = cu.removeServices) :
    (defaultSchedule upd.schedule = cu.schedule →
      newUpdate m upd = some (m, NewUpdateOutcome.noop)) ∧
    (defaultSchedule upd.schedule ≠ cu.schedule →
      m.currentState = UpdState.readyToUpdate → cu.schedule.type ≠ ForceUpdate →
      newUpdate m upd =
        some
          ({ m with
              currentUpdate := some { cu with schedule := defaultSchedule upd.schedule } },
            NewUpdateOutcome.rescheduled)) ∧
    (defaultSchedule upd.schedule ≠ cu.schedule →
      ¬ (m.currentState = UpdState.readyToUpdate ∧ cu.schedule.type ≠ ForceUpdate) →
      newUpdate m upd =
        some
          ({ m with
              pendingUpdate := some { upd with schedule := defaultSchedule upd.schedule } },
            NewUpdateOutcome.pendingStashed true)) := by
  have hdt : (defaultSchedule upd.schedule).timetable = upd.schedule.timetable := by
    by_cases h0 : upd.schedule.type = ""
    · simp [defaultSchedule, h0]
    · simp [defaultSchedule, h0]
  have hvalid1 : ¬ ((defaultSchedule upd.schedule).type = TimetableUpdate ∧
      ¬ validateTimetable (defaultSchedule upd.schedule).timetable) := by
    rw [hdt]
    rcases hty with h | h | h
    · rintro ⟨ht, _⟩; rw [h] at ht; exact absurd ht (by decide)
    · rintro ⟨ht, _⟩; rw [h] at ht; exact absurd ht (by decide)
    · rintro ⟨_, hv⟩; exact hv h.2
  have hvalid2 : (defaultSchedule upd.schedule).type = ForceUpdate ∨
      (defaultSchedule upd.schedule).type = TriggerUpdate ∨
      (defaultSchedule upd.schedule).type = TimetableUpdate := by
    rcases hty with h | h | h
    · exact Or.inl h
    · exact Or.inr (Or.inl h)
    · exact Or.inr (Or.inr h.1)
  refine ⟨?_, ?_, ?_⟩
  · intro hsch
    rw [newUpdate, if_neg hvalid1, if_neg (not_not_intro hvalid2)]
    cases hst : m.currentState with
    | noUpdate => exact absurd hst hactive
    | downloading =>
      simp only [hcu]
      simp [hIL, hRL, hIS, hRS, hsch]
    | readyToUpdate =>
      simp only [hcu]
      simp [hIL, hRL, hIS, hRS, hsch]
    | updating =>
      simp only [hcu]
      simp [hIL, hRL, hIS, hRS, hsch]
  · intro hsch hready hforce
    rw [newUpdate, if_neg hvalid1, if_neg (not_not_intro hvalid2), hready]
    simp only [hcu]
    simp [hIL, hRL, hIS, hRS, hsch, hforce]
  · intro hsch hnot
    rw [newUpdate, if_neg hvalid1, if_neg (not_not_intro hvalid2)]
    cases hst : m.currentState with
    | noUpdate => exact absurd hst hactive
    | downloading =>
      simp only [hcu]
      simp [hIL, hRL, hIS, hRS, hsch, canTransit]
    | readyToUpdate =>
      have hforce : cu.schedule.type = ForceUpdate := by
        by_contra hf
        exact hnot ⟨hst, hf⟩
      simp only [hcu]
      simp [hIL, hRL, hIS, hRS, hsch, hforce, canTransit]
    | updating =>
      simp only [hcu]
      simp [hIL, hRL, hIS, hRS, hsch, canTransit]

theorem classify_mem_download (usersServices allServices : List ServiceInfo)
    (x : ServiceInfoFromCloud) :
    ∀ desired : List ServiceInfoFromCloud,
      (x ∈ (classifyDesiredServices desired usersServices allServices).1 ↔
        x ∈ desired ∧ hasInstalledService usersServices x = false ∧
          hasInstalledService allServices x = false) := by
  intro desired
  induction desired with
  | nil => simp [classifyDesiredServices]
  | cons d rest ih =>
    simp only [classifyDesiredServices]
    by_cases hu : hasInstalledService usersServices d = true
    · rw [if_pos hu]
      constructor
      · intro hx
        have h2 := ih.mp hx
        exact ⟨List.mem_cons_of_mem d h2.1, h2.2.1, h2.2.2⟩
      · rintro ⟨hmem, h1, h2⟩
        rcases List.mem_cons.mp hmem with rfl | hmem2
        · rw [hu] at h1; cases h1
        · exact ih.mpr ⟨hmem2, h1, h2⟩
    · rw [if_neg hu]
      have hu2 : hasInstalledService usersServices d = false := by
        cases h : hasInstalledService usersServices d
        · rfl
        · exact absurd h hu
      by_cases ha : hasInstalledService allServices d = true
      · rw [if_pos ha]
        constructor
        · intro hx
          have h2 := ih.mp hx
          exact ⟨List.mem_cons_of_mem d h2.1, h2.2.1, h2.2.2⟩
        · rintro ⟨hmem, h1, h2⟩
          rcases List.mem_cons.mp hmem with rfl | hmem2
          · rw [ha] at h2; cases h2
          · exact ih.mpr ⟨hmem2, h1, h2⟩
      · rw [if_neg ha]
        have ha2 : hasInstalledService allServices d = false := by
          cases h : hasInstalledService allServices d
          · rfl
          · exact absurd h ha
        constructor
        · intro hx
          rcases List.mem_cons.mp hx with rfl | hx2
          · exact ⟨List.mem_cons_self x rest, hu2, ha2⟩
          · have h2 := ih.mp hx2
            exact ⟨List.mem_cons_of_mem d h2.1, h2.2.1, h2.2.2⟩
        · rintro ⟨hmem, h1, h2⟩
          rcases List.mem_cons.mp hmem with rfl | hmem2
          · exact List.mem_cons_self x _
          · exact List.mem_cons_of_mem d (ih.mpr ⟨hmem2, h1, h2⟩)

theorem classify_mem_install (usersServices allServices : List ServiceInfo)
    (x : ServiceInfoFromCloud) :
    ∀ desired : List ServiceInfoFromCloud,
      (x ∈ (classifyDesiredServices desired usersServices allServices).2 ↔
        x ∈ desired ∧ hasInstalledService usersServices x = false ∧
          hasInstalledService allServices x = true) := by
  intro desired
  induction desired with
  | nil => simp [classifyDesiredServices]
  | cons d rest ih =>
    simp only [classifyDesiredServices]
    by_cases hu : hasInstalledService usersServices d = true
    · rw [if_pos hu]
      constructor
      · intro hx
        have h2 := ih.mp hx
        exact ⟨List.mem_cons_of_mem d h2.1, h2.2.1, h2.2.2⟩
      · rintro ⟨hmem, h1, h2⟩
        rcases List.mem_cons.mp hmem with rfl | hmem2
        · rw [hu] at h1; cases h1
        · exact ih.mpr ⟨hmem2, h1, h2⟩
    · rw [if_neg hu]
      have hu2 : hasInstalledService usersServices d = false := by
        cases h : hasInstalledService usersServices d
        · rfl
        · exact absurd h hu
      by_cases ha : hasInstalledService allServices d = true
      · rw [if_pos ha]
        constructor
        · intro hx
          rcases List.mem_cons.mp hx with rfl | hx2
          · exact ⟨List.mem_cons_self x rest, hu2, ha⟩
          · have h2 := ih.mp hx2
            exact ⟨List.mem_cons_of_mem d h2.1, h2.2.1, h2.2.2⟩
        · rintro ⟨hmem, h1, h2⟩
          rcases List.mem_cons.mp hmem with rfl | hmem2
          · exact List.mem_cons_self x _
          · exact List.mem_cons_of_mem d (ih.mpr ⟨hmem2, h1, h2⟩)
      · rw [if_neg ha]
        constructor
        · intro hx
          have h2 := ih.mp hx
          exact ⟨List.mem_cons_of_mem d h2.1, h2.2.1, h2.2.2⟩
        · rintro ⟨hmem, h1, h2⟩
          rcases List.mem_cons.mp hmem with rfl | hmem2
          · exact absurd h2 ha
          · exact ih.mpr ⟨hmem2, h1, h2⟩

/-- C6: desired-service diffing.  A desired service installed for the current
users is scheduled for neither download nor install; one only installed
globally goes to the install list (not download); otherwise it goes to the
download list (not install); and every users' service with status `installed`
whose id is absent from the desired list goes to the remove list. -/
theorem claim_C6_processDesiredServices (desired : List ServiceInfoFromCloud)
    (usersServices allServices : List ServiceInfo) :
    (∀ d ∈ desired, hasInstalledService usersServices d = true →
      d ∉ (processDesiredServices desired usersServices allServices).1 ∧
      d ∉ (processDesiredServices desired usersServices allServices).2.1) ∧
    (∀ d ∈ desired, hasInstalledService usersServices d = false →
      hasInstalledService allServices d = true →
      d ∈ (processDesiredServices desired usersServices allServices).2.1 ∧
      d ∉ (processDesiredServices desired usersServices allServices).1) ∧
    (∀ d ∈ desired, hasInstalledService usersServices d = false →
      hasInstalledService allServices d = false →
      d ∈ (processDesiredServices desired usersServices allServices).1 ∧
      d ∉ (processDesiredServices desired usersServices allServices).2.1) ∧
    (∀ u ∈ usersServices, u.status = InstalledStatus →
      (∀ d ∈ desired, u.id ≠ d.id) →
      u ∈ (processDesiredServices desired usersServices allServices).2.2) := by
  refine ⟨?_, ?_, ?_, ?_⟩
  · intro d _ hu
    constructor
    · intro hmem
      have h := (classify_mem_download usersServices allServices d desired).mp hmem
      rw [hu] at h; cases h.2.1
    · intro hmem
      have h := (classify_mem_install usersServices allServices d desired).mp hmem
      rw [hu] at h; cases h.2.1
  · intro d hd hu ha
    constructor
    · exact (classify_mem_install usersServices allServices d desired).mpr ⟨hd, hu, ha⟩
    · intro hmem
      have h := (classify_mem_download usersServices allServices d desired).mp hmem
      rw [ha] at h; cases h.2.2
  · intro d hd hu ha
    constructor
    · exact (classify_mem_download usersServices allServices d desired).mpr ⟨hd, hu, ha⟩
    · intro hmem
      have h := (classify_mem_install usersServices allServices d desired).mp hmem
      rw [ha] at h; cases h.2.2
  · intro u hu hinst habs
    have : (u.status = InstalledStatus && !(desired.any fun d => u.id = d.id)) = true := by
      simp only [Bool.and_eq_true, Bool.not_eq_true', decide_eq_true_eq]
      refine ⟨by simp [hinst], ?_⟩
      rw [List.any_eq_false]
      intro d hd
      simp [habs d hd]
    exact List.mem_filter.mpr ⟨hu, this⟩

theorem claim_C6_witness :
    (⟨"svc", 2⟩ : ServiceInfoFromCloud) ∈
      (processDesiredServices [⟨"svc", 2⟩]
        [⟨"svc", 1, "installed", "", ""⟩]
        [⟨"svc", 2, "installed", "", ""⟩]).2.1 :=
  ((claim_C6_processDesiredServices [⟨"svc", 2⟩]
    [⟨"svc", 1, "installed", "", ""⟩]
    [⟨"svc", 2, "installed", "", ""⟩]).2.1 ⟨"svc", 2⟩ (by decide)
    (by decide) (by decide)).1

theorem promoteFromWait_spec (work : List String) :
    ∀ waitL : List String,
      promoteFromWait work waitL =
        (work ++ (waitL.find? fun w => !work.contains w).toList,
          waitL.eraseP fun w => !work.contains w) := by
  intro waitL
  induction waitL with
  | nil => simp [promoteFromWait]
  | cons w rest ih =>
    by_cases hc : work.contains w
    · have hp : (!work.contains w) = false := by rw [hc]; rfl
      simp only [promoteFromWait, if_pos hc, ih, List.find?_cons, hp, List.eraseP_cons]
      simp
    · have hc2 : work.contains w = false := by
        cases h : work.contains w
        · rfl
        · exact absurd h hc
      have hp : (!work.contains w) = true := by rw [hc2]; rfl
      simp only [promoteFromWait, if_neg hc, List.find?_cons, hp, List.eraseP_cons]
      simp

theorem actionStep_preserves (maxC : Nat) (s : ActionState) (c : ActionCmd)
    (h1 : s.work.Nodup) (h2 : s.work.length ≤ maxC) :
    (actionStep maxC s c).work.Nodup ∧ (actionStep maxC s c).work.length ≤ maxC := by
  cases c with
  | exec id =>
    simp only [actionStep, actionExecute]
    by_cases hc : s.work.contains id
    · rw [if_pos hc]; exact ⟨h1, h2⟩
    · rw [if_neg hc]
      by_cases hl : maxC ≤ s.work.length
      · rw [if_pos hl]; exact ⟨h1, h2⟩
      · rw [if_neg hl]
        have hid : id ∉ s.work := by simpa using hc
        constructor
        · simp [List.nodup_append, h1, hid]
        · simp only [List.length_append, List.length_cons, List.length_nil]
          omega
  | fin i =>
    simp only [actionStep]
    by_cases hi : i < s.work.length
    · rw [if_pos hi]
      have hn1 : (s.work.eraseIdx i).Nodup :=
        List.Nodup.sublist (List.eraseIdx_sublist s.work i) h1
      have hl1 : (s.work.eraseIdx i).length = s.work.length - 1 := by
        rw [List.length_eraseIdx]; simp [hi]
      rw [actionComplete]
      simp only [promoteFromWait_spec]
      cases hfind : s.wait.find? fun w => !(s.work.eraseIdx i).contains w with
      | none =>
        constructor
        · simpa using hn1
        · simp only [Option.toList, List.append_nil]
          omega
      | some w =>
        have hw : w ∉ s.work.eraseIdx i := by
          have := List.find?_some hfind
          simpa using this
        constructor
        · simp [List.nodup_append, hn1, hw]
        · simp only [Option.toList, List.length_append, List.length_cons,
            List.length_nil]
          omega
    · rw [if_neg hi]; exact ⟨h1, h2⟩

theorem actionFold_preserves (maxC : Nat) :
    ∀ (cmds : List ActionCmd) (s : ActionState),
      s.work.Nodup → s.work.length ≤ maxC →
      ((cmds.foldl (actionStep maxC) s).work.Nodup ∧
        (cmds.foldl (actionStep maxC) s).work.length ≤ maxC) := by
  intro cmds
  induction cmds with
  | nil => intro s h1 h2; exact ⟨h1, h2⟩
  | cons c rest ih =>
    intro s h1 h2
    have h3 := actionStep_preserves maxC s c h1 h2
    exact ih (actionStep maxC s c) h3.1 h3.2

/-- C5: along every run of the action handler, the work queue holds pairwise
distinct ids and at most `maxConcurrentActions` (10) entries; an `Execute`
whose id is absent from a non-full work queue starts immediately (joins the
work queue), otherwise it is appended to the wait queue; and a completion
removes the finished entry and promotes exactly the first wait entry whose id
is not in the remaining work queue. -/
theorem claim_C5_actionHandler (cmds : List ActionCmd) :
    (runActions maxConcurrentActions cmds).work.Nodup ∧
    (runActions maxConcurrentActions cmds).work.length ≤ maxConcurrentActions ∧
    (∀ id, id ∉ (runActions maxConcurrentActions cmds).work →
      (runActions maxConcurrentActions cmds).work.length < maxConcurrentActions →
      actionExecute maxConcurrentActions (runActions maxConcurrentActions cmds) id =
        { work := (runActions maxConcurrentActions cmds).work ++ [id],
          wait := (runActions maxConcurrentActions cmds).wait }) ∧
    (∀ id, id ∈ (runActions maxConcurrentActions cmds).work ∨
        maxConcurrentActions ≤ (runActions maxConcurrentActions cmds).work.length →
      actionExecute maxConcurrentActions (runActions maxConcurrentActions cmds) id =
        { work := (runActions maxConcurrentActions cmds).work,
          wait := (runActions maxConcurrentActions cmds).wait ++ [id] }) ∧
    (∀ i, i < (runActions maxConcurrentActions cmds).work.length →
      actionStep maxConcurrentActions (runActions maxConcurrentActions cmds)
          (ActionCmd.fin i) =
        { work := (runActions maxConcurrentActions cmds).work.eraseIdx i ++
            ((runActions maxConcurrentActions cmds).wait.find? fun w =>
              !((runActions maxConcurrentActions cmds).work.eraseIdx i).contains w).toList,
          wait := (runActions maxConcurrentActions cmds).wait.eraseP fun w =>
            !((runActions maxConcurrentActions cmds).work.eraseIdx i).contains w }) := by
  have hinv := actionFold_preserves maxConcurrentActions cmds ⟨[], []⟩
    List.nodup_nil (by simp [maxConcurrentActions])
  refine ⟨hinv.1, hinv.2, ?_, ?_, ?_⟩
  · intro id hid hlen
    have hc : (runActions maxConcurrentActions cmds).work.contains id = false := by
      simpa using hid
    simp only [actionExecute, hc, Bool.false_eq_true, if_false,
      if_neg (Nat.not_le_of_lt hlen)]
  · intro id hd
    rcases hd with hmem | hfull
    · have hc : (runActions maxConcurrentActions cmds).work.contains id = true := by
        simpa using hmem
      simp only [actionExecute, hc, if_true]
    · simp only [actionExecute]
      by_cases hc : (runActions maxConcurrentActions cmds).work.contains id
      · rw [if_pos hc]
      · rw [if_neg hc, if_pos hfull]
  · intro i hi
    simp only [actionStep, if_pos hi, actionComplete, promoteFromWait_spec]

theorem claim_C5_witness :
    (runActions maxConcurrentActions
      [ActionCmd.exec "a", ActionCmd.exec "a", ActionCmd.exec "b"]).work.Nodup :=
  (claim_C5_actionHandler
    [ActionCmd.exec "a", ActionCmd.exec "a", ActionCmd.exec "b"]).1

theorem foldl_errStep_eq (b : SWBackend) :
    ∀ (l : List String) (acc : String), (∀ e ∈ l, e ≠ "") →
      List.foldl (errStep b) acc l =
        (if acc = "" then firstNonCancel b l else acc) := by
  intro l
  induction l with
  | nil =>
    intro acc _
    by_cases h : acc = "" <;> simp [firstNonCancel, h]
  | cons e rest ih =>
    intro acc h
    have he : e ≠ "" := h e (List.mem_cons_self e rest)
    have hrest : ∀ x ∈ rest, x ≠ "" := fun x hx => h x (List.mem_cons_of_mem e hx)
    simp only [List.foldl_cons]
    rw [ih (errStep b acc e) hrest]
    by_cases hc : isCancelError b e = true
    · have h1 : errStep b acc e = acc := by simp [errStep, hc]
      have h2 : firstNonCancel b (e :: rest) = firstNonCancel b rest := by
        simp [firstNonCancel, List.filter_cons, hc]
      rw [h1, h2]
    · have hc2 : isCancelError b e = false := by
        cases hx : isCancelError b e
        · rfl
        · exact absurd hx hc
      by_cases ha : acc = ""
      · have h1 : errStep b acc e = e := by simp [errStep, hc2, ha]
        have h2 : firstNonCancel b (e :: rest) = e := by
          simp [firstNonCancel, List.filter_cons, hc2]
        rw [h1, h2, if_pos ha, if_neg he]
      · have h1 : errStep b acc e = acc := by simp [errStep, hc2, ha]
        rw [h1, if_neg ha, if_neg ha]

theorem firstNonCancel_append (b : SWBackend) (l1 l2 : List String)
    (h : ∀ e ∈ l1, e ≠ "") :
    firstNonCancel b (l1 ++ l2) =
      (if firstNonCancel b l1 = "" then firstNonCancel b l2
        else firstNonCancel b l1) := by
  simp only [firstNonCancel, List.filter_append]
  cases hf : l1.filter fun e => !isCancelError b e with
  | nil => simp
  | cons e tail =>
    have hmem : e ∈ l1.filter fun x => !isCancelError b x := by
      rw [hf]
      exact List.mem_cons_self e tail
    have he : e ≠ "" := h e (List.mem_of_mem_filter hmem)
    simp [he]

theorem execLayers_fold (b : SWBackend) :
    ∀ (items : List LayerInfoFromCloud) (pr : PhaseResult),
      (items.foldl (execLayerStep b) pr).err =
          List.foldl (errStep b) pr.err (items.filterMap b.installLayerResult) ∧
      (items.foldl (execLayerStep b) pr).attempts =
          pr.attempts ++ (items.map fun l => l.digest) ∧
      (items.foldl (execLayerStep b) pr).raised =
          pr.raised ++ items.filterMap b.installLayerResult ∧
      (items.foldl (execLayerStep b) pr).manager.downloadResult =
          pr.manager.downloadResult := by
  intro items
  induction items with
  | nil => intro pr; simp
  | cons l rest ih =>
    intro pr
    simp only [List.foldl_cons, List.filterMap_cons, List.map_cons]
    obtain ⟨h1, h2, h3, h4⟩ := ih (execLayerStep b pr l)
    cases h : b.installLayerResult l with
    | none =>
      have e1 : (execLayerStep b pr l).err = pr.err := by
        simp [execLayerStep, h]
      have e2 : (execLayerStep b pr l).attempts = pr.attempts ++ [l.digest] := by
        simp [execLayerStep, h]
      have e3 : (execLayerStep b pr l).raised = pr.raised := by
        simp [execLayerStep, h]
      have e4 : (execLayerStep b pr l).manager.downloadResult =
          pr.manager.downloadResult := by
        simp [execLayerStep, h, updateLayerStatusByID]
      rw [h1, h2, h3, h4, e1, e2, e3, e4]
      exact ⟨rfl, by simp, rfl, rfl⟩
    | some e =>
      have e1 : (execLayerStep b pr l).err = errStep b pr.err e := by
        simp [execLayerStep, h, handleErrorLayer]
      have e2 : (execLayerStep b pr l).attempts = pr.attempts ++ [l.digest] := by
        simp [execLayerStep, h, handleErrorLayer]
      have e3 : (execLayerStep b pr l).raised = pr.raised ++ [e] := by
        simp [execLayerStep, h, handleErrorLayer]
      have e4 : (execLayerStep b pr l).manager.downloadResult =
          pr.manager.downloadResult := by
        by_cases hc : isCancelError b e = true <;>
          simp [execLayerStep, h, handleErrorLayer, hc, updateLayerStatusByID]
      rw [h1, h2, h3, h4, e1, e2, e3, e4]
      exact ⟨rfl, by simp, by simp, rfl⟩

theorem selectLayers_fold (b : SWBackend) (dr : List (String × DownloadResult)) :
    ∀ (layers : List LayerInfoFromCloud) (acc : List LayerInfoFromCloud × PhaseResult),
      (layers.foldl (selectLayerStep b dr) acc).1 =
          acc.1 ++ selectedDownloadLayers dr layers ∧
      (layers.foldl (selectLayerStep b dr) acc).2.err =
          List.foldl (errStep b) acc.2.err (missingLayerErrors dr layers) ∧
      (layers.foldl (selectLayerStep b dr) acc).2.attempts = acc.2.attempts ∧
      (layers.foldl (selectLayerStep b dr) acc).2.raised =
          acc.2.raised ++ missingLayerErrors dr layers ∧
      (layers.foldl (selectLayerStep b dr) acc).2.manager.downloadResult =
          acc.2.manager.downloadResult := by
  intro layers
  induction layers with
  | nil => intro acc; simp [selectedDownloadLayers, missingLayerErrors]
  | cons l rest ih =>
    intro acc
    simp only [List.foldl_cons]
    cases hdr : dr.lookup l.digest with
    | none =>
      have hstep : selectLayerStep b dr acc l =
          (acc.1, handleErrorLayer b acc.2 l cantGetDownloadResult) := by
        simp [selectLayerStep, hdr]
      have hsel : selectedDownloadLayers dr (l :: rest) =
          selectedDownloadLayers dr rest := by
        simp [selectedDownloadLayers, List.filter_cons, hdr]
      have hmiss : missingLayerErrors dr (l :: rest) =
          cantGetDownloadResult :: missingLayerErrors dr rest := by
        simp [missingLayerErrors, List.filterMap_cons, hdr]
      rw [hstep, hsel, hmiss]
      obtain ⟨h1, h2, h3, h4, h5⟩ := ih _
      refine ⟨by simpa using h1, by simpa [handleErrorLayer] using h2,
        by simpa [handleErrorLayer] using h3, ?_, ?_⟩
      · rw [h4]; simp [handleErrorLayer]
      · rw [h5]
        by_cases hc : isCancelError b cantGetDownloadResult = true
        · simp [handleErrorLayer, hc, updateLayerStatusByID]
        · simp [handleErrorLayer, hc, updateLayerStatusByID]
    | some result =>
      by_cases herr : result.error ≠ ""
      · have hstep : selectLayerStep b dr acc l = acc := by
          simp [selectLayerStep, hdr, herr]
        have hsel : selectedDownloadLayers dr (l :: rest) =
            selectedDownloadLayers dr rest := by
          simp only [selectedDownloadLayers, List.filter_cons, hdr]
          simp [herr]
        have hmiss : missingLayerErrors dr (l :: rest) =
            missingLayerErrors dr rest := by
          simp [missingLayerErrors, List.filterMap_cons, hdr]
        rw [hstep, hsel, hmiss]
        exact ih acc
      · have heq : result.error = "" := by
          by_contra hx
          exact herr hx
        have hstep : selectLayerStep b dr acc l = (acc.1 ++ [l], acc.2) := by
          simp [selectLayerStep, hdr, herr]
        have hsel : selectedDownloadLayers dr (l :: rest) =
            l :: selectedDownloadLayers dr rest := by
          simp only [selectedDownloadLayers, List.filter_cons, hdr]
          simp [heq]
        have hmiss : missingLayerErrors dr (l :: rest) =
            missingLayerErrors dr rest := by
          simp [missingLayerErrors, List.filterMap_cons, hdr]
        rw [hstep, hsel, hmiss]
        obtain ⟨h1, h2, h3, h4, h5⟩ := ih (acc.1 ++ [l], acc.2)
        refine ⟨?_, by simpa using h2, by simpa using h3, by simpa using h4,
          by simpa using h5⟩
        rw [h1]; simp

theorem execServices_fold (b : SWBackend) :
    ∀ (items : List ServiceInfoFromCloud) (pr : PhaseResult),
      (items.foldl (execServiceStep b) pr).err =
          List.foldl (errStep b) pr.err (items.filterMap (serviceErrOf b)) ∧
      (items.foldl (execServiceStep b) pr).attempts =
          pr.attempts ++ (items.map fun s => s.id) ∧
      (items.foldl (execServiceStep b) pr).raised =
          pr.raised ++ items.filterMap (serviceErrOf b) ∧
      (items.foldl (execServiceStep b) pr).manager.downloadResult =
          pr.manager.downloadResult := by
  intro items
  induction items with
  | nil => intro pr; simp
  | cons s rest ih =>
    intro pr
    simp only [List.foldl_cons, List.filterMap_cons, List.map_cons]
    obtain ⟨h1, h2, h3, h4⟩ := ih (execServiceStep b pr s)
    cases h : b.installServiceResult s with
    | ok checksum =>
      have e1 : (execServiceStep b pr s).err = pr.err := by
        simp [execServiceStep, h]
      have e2 : (execServiceStep b pr s).attempts = pr.attempts ++ [s.id] := by
        simp [execServiceStep, h]
      have e3 : (execServiceStep b pr s).raised = pr.raised := by
        simp [execServiceStep, h]
      have e4 : (execServiceStep b pr s).manager.downloadResult =
          pr.manager.downloadResult := by
        simp [execServiceStep, h, updateServiceStatusByID]
      have hso : serviceErrOf b s = none := by simp [serviceErrOf, h]
      rw [h1, h2, h3, h4, e1, e2, e3, e4, hso]
      exact ⟨rfl, by simp, rfl, rfl⟩
    | error e =>
      have e1 : (execServiceStep b pr s).err = errStep b pr.err e := by
        simp [execServiceStep, h, handleErrorService]
      have e2 : (execServiceStep b pr s).attempts = pr.attempts ++ [s.id] := by
        simp [execServiceStep, h, handleErrorService]
      have e3 : (execServiceStep b pr s).raised = pr.raised ++ [e] := by
        simp [execServiceStep, h, handleErrorService]
      have e4 : (execServiceStep b pr s).manager.downloadResult =
          pr.manager.downloadResult := by
        simp only [execServiceStep, h, handleErrorService, updateStatusByID,
          updateServiceStatusByID, updateLayerStatusByID]
        split
        · rfl
        · split
          · rfl
          · split <;> rfl
      have hso : serviceErrOf b s = some e := by simp [serviceErrOf, h]
      rw [h1, h2, h3, h4, e1, e2, e3, e4, hso]
      exact ⟨rfl, by simp, by simp, rfl⟩

theorem selectServices_fold (b : SWBackend) (dr : List (String × DownloadResult)) :
    ∀ (services : List ServiceInfoFromCloud)
      (acc : List ServiceInfoFromCloud × PhaseResult),
      (services.foldl (selectServiceStep b dr) acc).1 =
          acc.1 ++ selectedDownloadServices dr services ∧
      (services.foldl (selectServiceStep b dr) acc).2.err =
          List.foldl (errStep b) acc.2.err (missingServiceErrors dr services) ∧
      (services.foldl (selectServiceStep b dr) acc).2.attempts = acc.2.attempts ∧
      (services.foldl (selectServiceStep b dr) acc).2.raised =
          acc.2.raised ++ missingServiceErrors dr services ∧
      (services.foldl (selectServiceStep b dr) acc).2.manager.downloadResult =
          acc.2.manager.downloadResult := by
  intro services
  induction services with
  | nil => intro acc; simp [selectedDownloadServices, missingServiceErrors]
  | cons s rest ih =>
    intro acc
    simp only [List.foldl_cons]
    cases hdr : dr.lookup s.id with
    | none =>
      have hstep : selectServiceStep b dr acc s =
          (acc.1, handleErrorService b acc.2 s.id cantGetDownloadResult) := by
        simp [selectServiceStep, hdr]
      have hsel : selectedDownloadServices dr (s :: rest) =
          selectedDownloadServices dr rest := by
        simp [selectedDownloadServices, List.filter_cons, hdr]
      have hmiss : missingServiceErrors dr (s :: rest) =
          cantGetDownloadResult :: missingServiceErrors dr rest := by
        simp [missingServiceErrors, List.filterMap_cons, hdr]
      rw [hstep, hsel, hmiss]
      obtain ⟨h1, h2, h3, h4, h5⟩ := ih _
      refine ⟨by simpa using h1, by simpa [handleErrorService] using h2,
        by simpa [handleErrorService] using h3, ?_, ?_⟩
      · rw [h4]; simp [handleErrorService]
      · rw [h5]
        simp only [handleErrorService, updateStatusByID, updateServiceStatusByID,
          updateLayerStatusByID]
        split
        · rfl
        · split
          · rfl
          · split <;> rfl
    | some result =>
      by_cases herr : result.error ≠ ""
      · have hstep : selectServiceStep b dr acc s = acc := by
          simp [selectServiceStep, hdr, herr]
        have hsel : selectedDownloadServices dr (s :: rest) =
            selectedDownloadServices dr rest := by
          simp only [selectedDownloadServices, List.filter_cons, hdr]
          simp [herr]
        have hmiss : missingServiceErrors dr (s :: rest) =
            missingServiceErrors dr rest := by
          simp [missingServiceErrors, List.filterMap_cons, hdr]
        rw [hstep, hsel, hmiss]
        exact ih acc
      · have heq : result.error = "" := by
          by_contra hx
          exact herr hx
        have hstep : selectServiceStep b dr acc s = (acc.1 ++ [s], acc.2) := by
          simp [selectServiceStep, hdr, herr]
        have hsel : selectedDownloadServices dr (s :: rest) =
            s :: selectedDownloadServices dr rest := by
          simp only [selectedDownloadServices, List.filter_cons, hdr]
          simp [heq]
        have hmiss : missingServiceErrors dr (s :: rest) =
            missingServiceErrors dr rest := by
          simp [missingServiceErrors, List.filterMap_cons, hdr]
        rw [hstep, hsel, hmiss]
        obtain ⟨h1, h2, h3, h4, h5⟩ := ih (acc.1 ++ [s], acc.2)
        refine ⟨?_, by simpa using h2, by simpa using h3, by simpa using h4,
          by simpa using h5⟩
        rw [h1]; simp

theorem removeServices_fold (b : SWBackend) :
    ∀ (services : List ServiceInfo) (pr : PhaseResult),
      (services.foldl (removeServiceStep b) pr).err =
          List.foldl (errStep b) pr.err (services.filterMap b.removeServiceResult) ∧
      (services.foldl (removeServiceStep b) pr).attempts =
          pr.attempts ++ (services.map fun s => s.id) ∧
      (services.foldl (removeServiceStep b) pr).raised =
          pr.raised ++ services.filterMap b.removeServiceResult := by
  intro services
  induction services with
  | nil => intro pr; simp
  | cons s rest ih =>
    intro pr
    simp only [List.foldl_cons, List.filterMap_cons, List.map_cons]
    obtain ⟨h1, h2, h3⟩ := ih (removeServiceStep b pr s)
    cases h : b.removeServiceResult s with
    | none =>
      have e1 : (removeServiceStep b pr s).err = pr.err := by
        simp [removeServiceStep, h]
      have e2 : (removeServiceStep b pr s).attempts = pr.attempts ++ [s.id] := by
        simp [removeServiceStep, h]
      have e3 : (removeServiceStep b pr s).raised = pr.raised := by
        simp [removeServiceStep, h]
      rw [h1, h2, h3, e1, e2, e3]
      exact ⟨rfl, by simp, rfl⟩
    | some e =>
      have e1 : (removeServiceStep b pr s).err = errStep b pr.err e := by
        simp [removeServiceStep, h, handleErrorService]
      have e2 : (removeServiceStep b pr s).attempts = pr.attempts ++ [s.id] := by
        simp [removeServiceStep, h, handleErrorService]
      have e3 : (removeServiceStep b pr s).raised = pr.raised ++ [e] := by
        simp [removeServiceStep, h, handleErrorService]
      rw [h1, h2, h3, e1, e2, e3]
      exact ⟨rfl, by simp, by simp⟩

theorem removeLayers_fold :
    ∀ (layers : List LayerInfo) (pr : PhaseResult),
      (layers.foldl removeLayerStep pr).err = pr.err ∧
      (layers.foldl removeLayerStep pr).attempts =
          pr.attempts ++ (layers.map fun l => l.digest) ∧
      (layers.foldl removeLayerStep pr).raised = pr.raised := by
  intro layers
  induction layers with
  | nil => intro pr; simp
  | cons l rest ih =>
    intro pr
    simp only [List.foldl_cons, List.map_cons]
    obtain ⟨h1, h2, h3⟩ := ih (removeLayerStep pr l)
    have e1 : (removeLayerStep pr l).err = pr.err := by simp [removeLayerStep]
    have e2 : (removeLayerStep pr l).attempts = pr.attempts ++ [l.digest] := by
      simp [removeLayerStep]
    have e3 : (removeLayerStep pr l).raised = pr.raised := by simp [removeLayerStep]
    rw [h1, h2, h3, e1, e2, e3]
    exact ⟨rfl, by simp, rfl⟩

theorem installLayersPhase_spec (b : SWBackend) (m : SoftwareManager)
    (cu : SoftwareUpdate) :
    (installLayersPhase b m cu).err =
        List.foldl (errStep b) ""
          (missingLayerErrors m.downloadResult cu.downloadLayers ++
            (selectedDownloadLayers m.downloadResult cu.downloadLayers ++
              cu.installLayers).filterMap b.installLayerResult) ∧
    (installLayersPhase b m cu).attempts =
        (selectedDownloadLayers m.downloadResult cu.downloadLayers ++
          cu.installLayers).map (fun l => l.digest) ∧
    (installLayersPhase b m cu).raised =
        missingLayerErrors m.downloadResult cu.downloadLayers ++
          (selectedDownloadLayers m.downloadResult cu.downloadLayers ++
            cu.installLayers).filterMap b.installLayerResult ∧
    (installLayersPhase b m cu).manager.downloadResult = m.downloadResult := by
  obtain ⟨s1, s2, s3, s4, s5⟩ := selectLayers_fold b m.downloadResult cu.downloadLayers
    ([], ⟨m, "", [], []⟩)
  obtain ⟨e1, e2, e3, e4⟩ := execLayers_fold b
    ((cu.downloadLayers.foldl (selectLayerStep b m.downloadResult)
      ([], ⟨m, "", [], []⟩)).1 ++ cu.installLayers)
    ((cu.downloadLayers.foldl (selectLayerStep b m.downloadResult)
      ([], ⟨m, "", [], []⟩)).2)
  have hdef : installLayersPhase b m cu =
      (((cu.downloadLayers.foldl (selectLayerStep b m.downloadResult)
          ([], ⟨m, "", [], []⟩)).1 ++ cu.installLayers).foldl (execLayerStep b)
        ((cu.downloadLayers.foldl (selectLayerStep b m.downloadResult)
          ([], ⟨m, "", [], []⟩)).2)) := rfl
  refine ⟨?_, ?_, ?_, ?_⟩
  · rw [hdef, e1, s2, s1]
    simp [List.foldl_append]
  · rw [hdef, e2, s3, s1]
    simp
  · rw [hdef, e3, s4, s1]
    simp
  · rw [hdef, e4, s5]

theorem installServicesPhase_spec (b : SWBackend) (m : SoftwareManager)
    (cu : SoftwareUpdate) :
    (installServicesPhase b m cu).err =
        List.foldl (errStep b) ""
          (missingServiceErrors m.downloadResult cu.downloadServices ++
            (selectedDownloadServices m.downloadResult cu.downloadServices ++
              cu.installServices).filterMap (serviceErrOf b)) ∧
    (installServicesPhase b m cu).attempts =
        (selectedDownloadServices m.downloadResult cu.downloadServices ++
          cu.installServices).map (fun s => s.id) ∧
    (installServicesPhase b m cu).raised =
        missingServiceErrors m.downloadResult cu.downloadServices ++
          (selectedDownloadServices m.downloadResult cu.downloadServices ++
            cu.installServices).filterMap (serviceErrOf b) ∧
    (installServicesPhase b m cu).manager.downloadResult = m.downloadResult := by
  obtain ⟨s1, s2, s3, s4, s5⟩ := selectServices_fold b m.downloadResult
    cu.downloadServices ([], ⟨m, "", [], []⟩)
  obtain ⟨e1, e2, e3, e4⟩ := execServices_fold b
    ((cu.downloadServices.foldl (selectServiceStep b m.downloadResult)
      ([], ⟨m, "", [], []⟩)).1 ++ cu.installServices)
    ((cu.downloadServices.foldl (selectServiceStep b m.downloadResult)
      ([], ⟨m, "", [], []⟩)).2)
  have hdef : installServicesPhase b m cu =
      (((cu.downloadServices.foldl (selectServiceStep b m.downloadResult)
          ([], ⟨m, "", [], []⟩)).1 ++ cu.installServices).foldl (execServiceStep b)
        ((cu.downloadServices.foldl (selectServiceStep b m.downloadResult)
          ([], ⟨m, "", [], []⟩)).2)) := rfl
  refine ⟨?_, ?_, ?_, ?_⟩
  · rw [hdef, e1, s2, s1]
    simp [List.foldl_append]
  · rw [hdef, e2, s3, s1]
    simp
  · rw [hdef, e3, s4, s1]
    simp
  · rw [hdef, e4, s5]

/-- C7: the update phase processes install-layers, then install-services,
then remove-services, then remove-layers — the full item key sequence, in that
order, independent of which backend calls fail (no per-item failure aborts the
others) — and the update error delivered with the finish-update event is the
first per-item error across the phases that is not a cancellation error
(cancellation errors are suppressed).  Backend errors are assumed non-empty
strings, as Go error messages are. -/
theorem claim_C7_updatePhases (b : SWBackend) (m : SoftwareManager)
    (cu : SoftwareUpdate) (hcu : m.currentUpdate = some cu)
    (hne : ∀ e ∈ expectedRaised b m cu, e ≠ "") :
    ∃ res, swUpdate b m = some res ∧
      res.attempts = expectedAttempts m cu ∧
      res.raised = expectedRaised b m cu ∧
      res.err = firstNonCancel b (expectedRaised b m cu) := by
  simp only [swUpdate, hcu]
  obtain ⟨p1e, p1a, p1r, p1d⟩ := installLayersPhase_spec b m cu
  obtain ⟨p2e, p2a, p2r, p2d⟩ :=
    installServicesPhase_spec b (installLayersPhase b m cu).manager cu
  rw [p1d] at p2e p2a p2r
  obtain ⟨p3e, p3a, p3r⟩ := removeServices_fold b cu.removeServices
    ⟨(installServicesPhase b (installLayersPhase b m cu).manager cu).manager, "", [], []⟩
  obtain ⟨p4e, p4a, p4r⟩ := removeLayers_fold cu.removeLayers
    ⟨(cu.removeServices.foldl (removeServiceStep b)
      ⟨(installServicesPhase b (installLayersPhase b m cu).manager cu).manager,
        "", [], []⟩).manager, "", [], []⟩
  have hrsp : removeServicesPhase b
      (installServicesPhase b (installLayersPhase b m cu).manager cu).manager cu =
      cu.removeServices.foldl (removeServiceStep b)
        ⟨(installServicesPhase b (installLayersPhase b m cu).manager cu).manager,
          "", [], []⟩ := rfl
  have hrlp : removeLayersPhase
      (removeServicesPhase b
        (installServicesPhase b (installLayersPhase b m cu).manager cu).manager
        cu).manager cu =
      cu.removeLayers.foldl removeLayerStep
        ⟨(cu.removeServices.foldl (removeServiceStep b)
          ⟨(installServicesPhase b (installLayersPhase b m cu).manager cu).manager,
            "", [], []⟩).manager, "", [], []⟩ := rfl
  have hL : ∀ e ∈ missingLayerErrors m.downloadResult cu.downloadLayers ++
      (selectedDownloadLayers m.downloadResult cu.downloadLayers ++
        cu.installLayers).filterMap b.installLayerResult, e ≠ "" := by
    intro e he
    refine hne e ?_
    simp only [expectedRaised, List.append_assoc, List.mem_append] at he ⊢
    tauto
  have hS : ∀ e ∈ missingServiceErrors m.downloadResult cu.downloadServices ++
      (selectedDownloadServices m.downloadResult cu.downloadServices ++
        cu.installServices).filterMap (serviceErrOf b), e ≠ "" := by
    intro e he
    refine hne e ?_
    simp only [expectedRaised, List.append_assoc, List.mem_append] at he ⊢
    tauto
  have hR : ∀ e ∈ cu.removeServices.filterMap b.removeServiceResult, e ≠ "" := by
    intro e he
    refine hne e ?_
    simp only [expectedRaised, List.append_assoc, List.mem_append]
    tauto
  have hp1 : (installLayersPhase b m cu).err =
      firstNonCancel b (missingLayerErrors m.downloadResult cu.downloadLayers ++
        (selectedDownloadLayers m.downloadResult cu.downloadLayers ++
          cu.installLayers).filterMap b.installLayerResult) := by
    rw [p1e, foldl_errStep_eq b _ "" hL, if_pos rfl]
  have hp2 : (installServicesPhase b (installLayersPhase b m cu).manager cu).err =
      firstNonCancel b (missingServiceErrors m.downloadResult cu.downloadServices ++
        (selectedDownloadServices m.downloadResult cu.downloadServices ++
          cu.installServices).filterMap (serviceErrOf b)) := by
    rw [p2e, foldl_errStep_eq b _ "" hS, if_pos rfl]
  have hp3 : (removeServicesPhase b
      (installServicesPhase b (installLayersPhase b m cu).manager cu).manager cu).err =
      firstNonCancel b (cu.removeServices.filterMap b.removeServiceResult) := by
    rw [hrsp, p3e, foldl_errStep_eq b _ "" hR, if_pos rfl]
  have hp4 : (removeLayersPhase
      (removeServicesPhase b
        (installServicesPhase b (installLayersPhase b m cu).manager cu).manager
        cu).manager cu).err = "" := by
    rw [hrlp, p4e]
  have hfc : firstNonCancel b (expectedRaised b m cu) =
      (if firstNonCancel b (missingLayerErrors m.downloadResult cu.downloadLayers ++
          (selectedDownloadLayers m.downloadResult cu.downloadLayers ++
            cu.installLayers).filterMap b.installLayerResult) = "" then
        (if firstNonCancel b
            (missingServiceErrors m.downloadResult cu.downloadServices ++
              (selectedDownloadServices m.downloadResult cu.downloadServices ++
                cu.installServices).filterMap (serviceErrOf b)) = "" then
          firstNonCancel b (cu.removeServices.filterMap b.removeServiceResult)
        else firstNonCancel b
          (missingServiceErrors m.downloadResult cu.downloadServices ++
            (selectedDownloadServices m.downloadResult cu.downloadServices ++
              cu.installServices).filterMap (serviceErrOf b)))
      else firstNonCancel b (missingLayerErrors m.downloadResult cu.downloadLayers ++
        (selectedDownloadLayers m.downloadResult cu.downloadLayers ++
          cu.installLayers).filterMap b.installLayerResult)) := by
    have hshape : expectedRaised b m cu =
        (missingLayerErrors m.downloadResult cu.downloadLayers ++
          (selectedDownloadLayers m.downloadResult cu.downloadLayers ++
            cu.installLayers).filterMap b.installLayerResult) ++
        ((missingServiceErrors m.downloadResult cu.downloadServices ++
          (selectedDownloadServices m.downloadResult cu.downloadServices ++
            cu.installServices).filterMap (serviceErrOf b)) ++
          cu.removeServices.filterMap b.removeServiceResult) := by
      simp [expectedRaised, List.append_assoc]
    rw [hshape, firstNonCancel_append b _ _ hL, firstNonCancel_append b _ _ hS]
  refine ⟨_, rfl, ?_, ?_, ?_⟩
  · show (installLayersPhase b m cu).attempts ++
      (installServicesPhase b (installLayersPhase b m cu).manager cu).attempts ++
      (removeServicesPhase b
        (installServicesPhase b (installLayersPhase b m cu).manager cu).manager
        cu).attempts ++
      (removeLayersPhase
        (removeServicesPhase b
          (installServicesPhase b (installLayersPhase b m cu).manager cu).manager
          cu).manager cu).attempts = expectedAttempts m cu
    rw [hrlp, hrsp, p1a, p2a, p3a, p4a]
    simp [expectedAttempts, List.append_assoc]
  · show (installLayersPhase b m cu).raised ++
      (installServicesPhase b (installLayersPhase b m cu).manager cu).raised ++
      (removeServicesPhase b
        (installServicesPhase b (installLayersPhase b m cu).manager cu).manager
        cu).raised ++
      (removeLayersPhase
        (removeServicesPhase b
          (installServicesPhase b (installLayersPhase b m cu).manager cu).manager
          cu).manager cu).raised = expectedRaised b m cu
    rw [hrlp, hrsp, p1r, p2r, p3r, p4r]
    simp [expectedRaised, List.append_assoc]
  · show (if (installLayersPhase b m cu).err ≠ "" then (installLayersPhase b m cu).err
      else if (installServicesPhase b (installLayersPhase b m cu).manager cu).err ≠ ""
        then (installServicesPhase b (installLayersPhase b m cu).manager cu).err
      else if (removeServicesPhase b
          (installServicesPhase b (installLayersPhase b m cu).manager cu).manager
          cu).err ≠ "" then
        (removeServicesPhase b
          (installServicesPhase b (installLayersPhase b m cu).manager cu).manager
          cu).err
      else (removeLayersPhase
        (removeServicesPhase b
          (installServicesPhase b (installLayersPhase b m cu).manager cu).manager
          cu).manager cu).err) = firstNonCancel b (expectedRaised b m cu)
    rw [hp1, hp2, hp3, hp4, hfc]
    by_cases h1 : firstNonCancel b (missingLayerErrors m.downloadResult
        cu.downloadLayers ++
        (selectedDownloadLayers m.downloadResult cu.downloadLayers ++
          cu.installLayers).filterMap b.installLayerResult) = ""
    · rw [if_pos h1, if_neg (fun hx => hx h1)]
      by_cases h2 : firstNonCancel b
          (missingServiceErrors m.downloadResult cu.downloadServices ++
            (selectedDownloadServices m.downloadResult cu.downloadServices ++
              cu.installServices).filterMap (serviceErrOf b)) = ""
      · rw [if_pos h2, if_neg (fun hx => hx h2)]
        by_cases h3 : firstNonCancel b
            (cu.removeServices.filterMap b.removeServiceResult) = ""
        · rw [if_neg (fun hx => hx h3), h3]
        · rw [if_pos h3]
      · rw [if_neg h2, if_pos h2]
    · rw [if_neg h1, if_pos h1]

theorem claim_C7_witness :
    ∃ res, swUpdate c7backend c7manager = some res ∧
      res.attempts = expectedAttempts c7manager c7update ∧
      res.raised = expectedRaised c7backend c7manager c7update ∧
      res.err = firstNonCancel c7backend (expectedRaised c7backend c7manager c7update) :=
  claim_C7_updatePhases c7backend c7manager c7update rfl (by decide)

theorem claim_C2_witness :
    newUpdate c2manager { c2updateA with schedule := ⟨"trigger", 100, []⟩ } =
      some
        ({ c2manager with
            currentUpdate := some { c2updateA with schedule := ⟨"trigger", 100, []⟩ } },
          NewUpdateOutcome.rescheduled) := by
  have h := (claim_C2_supersession c2manager c2updateA
    { c2updateA with schedule := ⟨"trigger", 100, []⟩ }
    rfl (by decide) (Or.inr (Or.inl rfl)) rfl rfl rfl rfl).2.1
    (by decide) rfl (by decide)
  simpa using h

end AosCM
